import Mathlib

set_option maxRecDepth 8192

/-!
Verification of the `cse227_mcp_tool` scripts against their specification.

Each section shallowly embeds one part of the Python sources:

* `load_env_file` (`search_google_serp.py`, `get_user_posts.py`,
  `get_linkedin_posts_browserbase.py` — the three copies are identical),
* the credential helpers (`get_bearer_token`, `get_browserbase_credentials`,
  `get_linkedin_credentials`, `build_auth_headers` and the base-url check in
  `search_google_serp.main`),
* the retrying HTTP helpers (`request_json`, `request_feed`, `make_request`),
* the pagination loops (`get_user_tweets`, `query_arxiv`),
* the de-duplicating collection loops of `search_google_serp.main` and of the
  LinkedIn scraper,
* the per-item download/save loops (`download_entries`, `fetch_and_save_html`),
* `select_video_variant`,
* a JSON value type with the writer/reader pair used to state the
  serialize/parse round-trip of the documents the scripts emit.

Machine integers are modelled as `Nat`/`Int`, seconds as `ℚ`, Python `dict`s
as association lists, `os.environ` as `String → Option String`, and fallible
routines return `Except`/`Option`.  Network responses are universally
quantified inputs.
-/

/-! ### Python-semantics helpers -/

/-- Truthiness of `os.environ.get(...)`: `None` and the empty string are falsy. -/
def pyTruthy (v : Option String) : Bool :=
  match v with
  | none => false
  | some s => s != ""

/-- Python slice `l[:n]` for an `int` bound `n`: a nonnegative bound keeps the
first `n` elements, a negative bound drops the last `-n` elements (clamped). -/
def pySliceTo {α : Type} (l : List α) (n : Int) : List α :=
  if 0 ≤ n then l.take n.toNat else l.take (l.length - (-n).toNat)

/-- The double-quote character (written via its code point to keep string
literals simple). -/
def dquoteChar : Char := Char.ofNat 34

/-- The single-quote character. -/
def squoteChar : Char := Char.ofNat 39

/-! ### `load_env_file` (claim C8)

Embeds `load_env_file` from `search_google_serp.py` lines 37-58; the copies in
`get_user_posts.py` (lines 25-48) and `get_linkedin_posts_browserbase.py`
(lines 29-48) are line-for-line identical.  The `.env` file is the list of its
lines; `os.environ` is an `EnvMap`. -/

/-- Model of `os.environ`: a partial map from variable names to values. -/
def EnvMap : Type := String → Option String

/-- Point update of an environment (`os.environ[key] = value`). -/
def envSet (env : EnvMap) (k v : String) : EnvMap :=
  fun q => if q = k then some v else env q

/-- Python `str.strip()` on a character list: drop leading and trailing
whitespace. -/
def trimChars (cs : List Char) : List Char :=
  ((cs.dropWhile Char.isWhitespace).reverse.dropWhile Char.isWhitespace).reverse

/-- Test that a character list starts and ends with the given quote character
(Python `value.startswith(q) and value.endswith(q)`); as in Python, a single
quote character passes the test by itself. -/
def has_quote_pair (q : Char) (v : List Char) : Bool :=
  match v.head?, v.getLast? with
  | some a, some b => a == q && b == q
  | _, _ => false

/-- Embeds the quote-stripping step of `load_env_file`: when the (stripped)
value starts and ends with `"`, or starts and ends with a single quote, one
level of quotes is removed (`value[1:-1]`). -/
def strip_surrounding_quotes (v : List Char) : List Char :=
  if has_quote_pair dquoteChar v || has_quote_pair squoteChar v then
    (v.drop 1).dropLast
  else v

/-- Python `line.split("=", 1)`: `none` when the line has no `=`, otherwise the
text before the first `=` and everything after it. -/
def split_once_on_eq : List Char → Option (List Char × List Char)
  | [] => none
  | c :: rest =>
    if c = '=' then some ([], rest)
    else (split_once_on_eq rest).map (fun p => (c :: p.1, p.2))

/-- Embeds the per-line parsing of `load_env_file`: strip the line, skip blank
lines and `#` comments and lines without `=`, split once on `=`, strip key and
value, strip one level of surrounding quotes from the value. -/
def parse_env_line (line : String) : Option (String × String) :=
  let cs := trimChars line.data
  if cs = [] then none
  else if cs.head? = some '#' then none
  else
    match split_once_on_eq cs with
    | none => none
    | some (k, v) =>
      some (String.mk (trimChars k), String.mk (strip_surrounding_quotes (trimChars v)))

/-- Embeds the `load_env_file` loop: each parsed `KEY=VALUE` line is written to
the environment only when the key is not already present. -/
def load_env_file (lines : List String) (env : EnvMap) : EnvMap :=
  match lines with
  | [] => env
  | line :: rest =>
    match parse_env_line line with
    | none => load_env_file rest env
    | some (k, v) =>
      if (env k).isSome then load_env_file rest env
      else load_env_file rest (envSet env k v)

/-- The value the first `.env` line carrying key `k` assigns (specification of
what an absent key receives). -/
def first_env_assignment (lines : List String) (k : String) : Option String :=
  match lines with
  | [] => none
  | line :: rest =>
    match parse_env_line line with
    | some (k2, v) => if k2 = k then some v else first_env_assignment rest k
    | none => first_env_assignment rest k

/-- Environment used by concrete witnesses: `PRESENT` is set (to `old`),
everything else is unset. -/
def envWitness : EnvMap :=
  fun q => if q = "PRESENT" then some "old" else none

/-- A two-line `.env` file: the first line tries to overwrite `PRESENT`, the
second assigns `FRESH` a double-quoted value. -/
def envFileWitness : List String :=
  ["PRESENT=new", "FRESH=" ++ String.mk [dquoteChar] ++ "hello" ++ String.mk [dquoteChar]]

/-- Result of a script prologue: either the value it produced, or the exit
code and stderr lines of a `sys.exit`. -/
abbrev ScriptResult (α : Type) : Type := Except (Nat × List String) α

/-- Embeds `get_bearer_token`: exits with status 1 when `X_BEARER_TOKEN` is
unset or empty. -/
def get_bearer_token (env : EnvMap) : ScriptResult String :=
  let token := env "X_BEARER_TOKEN"
  if pyTruthy token then .ok (token.getD "")
  else
    .error (1, ["Error: X_BEARER_TOKEN environment variable is not set.",
                "Get your token from https://developer.x.com/"])

/-- Embeds `get_browserbase_credentials`: exits with status 1 when either
variable is unset or empty. -/
def get_browserbase_credentials (env : EnvMap) : ScriptResult (String × String) :=
  let api_key := env "BROWSERBASE_API_KEY"
  let project_id := env "BROWSERBASE_PROJECT_ID"
  if !pyTruthy api_key || !pyTruthy project_id then
    .error (1, ["Error: BROWSERBASE_API_KEY and BROWSERBASE_PROJECT_ID must be set.",
                "Add them to your .env file or set as environment variables."])
  else .ok (api_key.getD "", project_id.getD "")

/-- Embeds `get_linkedin_credentials`: exits with status 1 when either
variable is unset or empty. -/
def get_linkedin_credentials (env : EnvMap) : ScriptResult (String × String) :=
  let email := env "LINKEDIN_EMAIL"
  let password := env "LINKEDIN_PASSWORD"
  if !pyTruthy email || !pyTruthy password then
    .error (1, ["Error: LINKEDIN_EMAIL and LINKEDIN_PASSWORD must be set.",
                "Add them to your .env file or set as environment variables."])
  else .ok (email.getD "", password.getD "")

/-- Embeds the start of `scrape_linkedin_profile` (lines 295-296): both
credential pairs are fetched, in order, before the Browserbase client is even
constructed. -/
def scrape_linkedin_credentials (env : EnvMap) :
    ScriptResult ((String × String) × (String × String)) := do
  let bb ← get_browserbase_credentials env
  let li ← get_linkedin_credentials env
  pure (bb, li)

/-- Embeds `build_auth_headers`: the API key and bearer token are optional —
when absent or empty the corresponding header is simply omitted and no error
is raised. -/
def build_auth_headers (env : EnvMap) : List (String × String) :=
  let headers := [("Accept", "application/json"),
                  ("User-Agent", "Python Google SERP Client")]
  let headers :=
    match env "GOOGLE_SERP_API_KEY" with
    | some k =>
      if k != "" then
        headers ++ [((env "GOOGLE_SERP_API_KEY_HEADER").getD "X-API-Key", k)]
      else headers
    | none => headers
  match env "GOOGLE_SERP_BEARER_TOKEN" with
  | some t => if t != "" then headers ++ [("Authorization", "Bearer " ++ t)] else headers
  | none => headers

/-- Embeds the only credential-like preflight of `search_google_serp.main`:
`args.base_url` defaults to `GOOGLE_SERP_BASE_URL` and the script exits with
status 1 only when that value is missing or empty; on success it proceeds
with `build_auth_headers env`. -/
def serp_preflight (env : EnvMap) (cli_base_url : Option String) :
    ScriptResult (String × List (String × String)) :=
  let base_url :=
    match cli_base_url with
    | some s => some s
    | none => env "GOOGLE_SERP_BASE_URL"
  if pyTruthy base_url then .ok (base_url.getD "", build_auth_headers env)
  else .error (1, ["Error: missing --base-url (or GOOGLE_SERP_BASE_URL in environment)."])

/-- Environment for the C5 counterexample: the SERP base URL is configured but
no SERP API key, header name, or bearer token is present. -/
def envSerpNoKey : EnvMap :=
  fun q => if q = "GOOGLE_SERP_BASE_URL" then some "http://api.example" else none

/-- Outcome of one HTTP attempt: parsed success body, an `HTTPError` with
status code / `Retry-After` value / body, or a `URLError`. -/
inductive HttpAttempt (α : Type) where
  | ok (value : α)
  | httpErr (code : Nat) (retryAfterRaw : Option ℚ) (body : String)
  | urlErr (reason : String)

/-- Error raised out of a request helper (`RuntimeError` variants). -/
inductive ReqError where
  | httpStatus (code : Nat) (body : String)
  | urlError (reason : String)
  | requestFailed
deriving DecidableEq

/-- Retryable status codes, from both `search_google_serp.py` line 64 and
`search_arxiv_and_download.py` line 28. -/
def RETRYABLE_HTTP_CODES : List Nat := [429, 500, 502, 503, 504]

/-- Embeds `parse_retry_after_seconds`: the argument is the numeric value the
header text denotes (either a float literal or an HTTP date minus the current
time, in seconds) or `none` when the header is absent or unparseable; the
result is clamped below by zero as in the source. -/
def parse_retry_after_seconds (raw : Option ℚ) : Option ℚ :=
  raw.map (fun q => max 0 q)

/-- Trace of one call to a retrying helper: its result, every `time.sleep`
duration in order, and how many HTTP attempts were issued. -/
structure RetryTrace (α : Type) where
  result : Except ReqError α
  sleeps : List ℚ
  attemptsUsed : Nat

/-- Embeds the `for attempt in range(attempts)` loop of `request_json`.  The
`fuel` argument counts the remaining loop iterations (`attempts - attempt`);
the zero case is the fall-through end of the loop, unreachable from
`request_json` itself. -/
def request_json_loop {α : Type} (responses : Nat → HttpAttempt α) (jitter : Nat → ℚ)
    (retry_backoff : ℚ) (attempts : Nat) : Nat → Nat → RetryTrace α
  | 0, _ => ⟨.error .requestFailed, [], 0⟩
  | fuel + 1, attempt =>
    match responses attempt with
    | .ok v => ⟨.ok v, [], 1⟩
    | .httpErr code ra body =>
      if code ∈ RETRYABLE_HTTP_CODES ∧ attempt < attempts - 1 then
        let fallback := retry_backoff * 2 ^ attempt + jitter attempt
        let sleep := (parse_retry_after_seconds ra).getD fallback
        let rest := request_json_loop responses jitter retry_backoff attempts fuel (attempt + 1)
        ⟨rest.result, max 0 sleep :: rest.sleeps, rest.attemptsUsed + 1⟩
      else ⟨.error (.httpStatus code body), [], 1⟩
    | .urlErr reason =>
      if attempt < attempts - 1 then
        let sleep := retry_backoff * 2 ^ attempt + jitter attempt
        let rest := request_json_loop responses jitter retry_backoff attempts fuel (attempt + 1)
        ⟨rest.result, max 0 sleep :: rest.sleeps, rest.attemptsUsed + 1⟩
      else ⟨.error (.urlError reason), [], 1⟩

/-- Embeds `request_json`: `attempts = max(0, int(max_retries)) + 1`, starting
at attempt 0. -/
def request_json {α : Type} (responses : Nat → HttpAttempt α) (jitter : Nat → ℚ)
    (max_retries : Int) (retry_backoff : ℚ) : RetryTrace α :=
  let attempts := (max 0 max_retries).toNat + 1
  request_json_loop responses jitter retry_backoff attempts attempts 0

/-- Embeds the `for attempt in range(1, attempts + 1)` loop of `request_feed`.
Attempt indices are 1-based; the retry wait is always the pure exponential
backoff `retry_backoff * 2 ** (attempt - 1)` — the `Retry-After` header of the
response is never consulted.  The zero-fuel case is the final
`raise RuntimeError(f"Request failed for {url}")` after the loop. -/
def request_feed_loop {α : Type} (responses : Nat → HttpAttempt α)
    (retry_backoff : ℚ) (attempts : Int) : Nat → Nat → RetryTrace α
  | 0, _ => ⟨.error .requestFailed, [], 0⟩
  | fuel + 1, attempt =>
    match responses attempt with
    | .ok v => ⟨.ok v, [], 1⟩
    | .httpErr code _ body =>
      if code ∈ RETRYABLE_HTTP_CODES ∧ (attempt : Int) < attempts then
        let wait := retry_backoff * 2 ^ (attempt - 1)
        let rest := request_feed_loop responses retry_backoff attempts fuel (attempt + 1)
        ⟨rest.result, wait :: rest.sleeps, rest.attemptsUsed + 1⟩
      else ⟨.error (.httpStatus code body), [], 1⟩
    | .urlErr reason =>
      if (attempt : Int) < attempts then
        let wait := retry_backoff * 2 ^ (attempt - 1)
        let rest := request_feed_loop responses retry_backoff attempts fuel (attempt + 1)
        ⟨rest.result, wait :: rest.sleeps, rest.attemptsUsed + 1⟩
      else ⟨.error (.urlError reason), [], 1⟩

/-- Embeds `request_feed`: `attempts = max_retries + 1` (no clamping in the
source; `main` validates `max_retries >= 0`), attempts numbered from 1. -/
def request_feed {α : Type} (responses : Nat → HttpAttempt α)
    (max_retries : Int) (retry_backoff : ℚ) : RetryTrace α :=
  let attempts : Int := max_retries + 1
  request_feed_loop responses retry_backoff attempts attempts.toNat 1

/-- Outcome of `make_request` in `get_user_posts.py`: the parsed body, or the
`sys.exit(1)` taken in both `except` branches. -/
inductive XOutcome (α : Type) where
  | ok (value : α)
  | exited (code : Nat)
deriving DecidableEq

/-- Embeds `make_request`: any `HTTPError` (whatever its status code) and any
`URLError` prints to stderr and exits with status 1; there is no retry and no
sleep. -/
def make_request {α : Type} (response : HttpAttempt α) : XOutcome α :=
  match response with
  | .ok v => .ok v
  | .httpErr _ _ _ => .exited 1
  | .urlErr _ => .exited 1

/-- Embeds the error handling around the search request in
`search_google_serp.main` (lines 726-778): a `RuntimeError` from the helper
leaves `payload` as `None` and the script calls `sys.exit(1)`. -/
def serp_main_search_exit_code {α : Type} (r : Except ReqError α) : Option Nat :=
  match r with
  | .ok _ => none
  | .error _ => some 1

/-- Embeds the error handling around `query_arxiv` in
`search_arxiv_and_download.main` (lines 418-435): an exception is caught,
reported, and the script returns exit status 1. -/
def arxiv_main_search_exit_code {α : Type} (r : Except ReqError α) : Option Nat :=
  match r with
  | .ok _ => none
  | .error _ => some 1

/-- Sleep duration `request_json` records when it retries after attempt `i`,
as a function of that attempt's response. -/
def retry_sleep_at {α : Type} (responses : Nat → HttpAttempt α) (jitter : Nat → ℚ)
    (retry_backoff : ℚ) (i : Nat) : ℚ :=
  match responses i with
  | .httpErr _ ra _ =>
    max 0 ((parse_retry_after_seconds ra).getD (retry_backoff * 2 ^ i + jitter i))
  | _ => max 0 (retry_backoff * 2 ^ i + jitter i)

/-- Predicate on an attempt's response: no applicable `Retry-After` value (the
header is absent or unparseable, or the failure is not an `HTTPError`). -/
def no_retry_after {α : Type} (r : HttpAttempt α) : Prop :=
  match r with
  | .httpErr _ ra _ => ra = none
  | _ => True

/-- Response family for the C2 witness: the first attempt hits a network
error, the second succeeds. -/
def c2Responses : Nat → HttpAttempt Unit :=
  fun i => if i = 0 then .urlErr "connection reset" else .ok ()

/-- Response family for the C1 counterexample: the first arXiv attempt fails
with HTTP 429 carrying a parseable `Retry-After: 7` header, the second
succeeds. -/
def c1Responses : Nat → HttpAttempt Unit :=
  fun i => if i = 1 then .httpErr 429 (some 7) "rate limited" else .ok ()

/-- Response family for the C1 witness: attempt 0 is a retryable 429 with a
`Retry-After` value, attempt 1 a non-retryable 404, later attempts a network
error. -/
def c1WitnessResponses : Nat → HttpAttempt Unit :=
  fun i =>
    if i = 0 then .httpErr 429 (some 7) "slow down"
    else if i = 1 then .httpErr 404 none "missing"
    else .urlErr "refused"

/-- One page of the X API response: `data`, `includes.media`, and
`meta.next_token`. -/
structure TweetsPage (τ μ : Type) where
  tweets : List τ
  media : List μ
  nextToken : Option String
deriving DecidableEq

/-- Loop state of `get_user_tweets`: the accumulators and the index of the
next page to fetch. -/
structure TweetsState (τ μ : Type) where
  allTweets : List τ
  allMedia : List μ
  page : Nat
deriving DecidableEq

/-- Outcome of one iteration: the loop broke with the final accumulators, or
continues in a new state. -/
inductive TweetsOutcome (τ μ : Type) where
  | done (tweets : List τ) (media : List μ)
  | running (s : TweetsState τ μ)
deriving DecidableEq

/-- Python truthiness of the `max_results` parameter (`None` and `0` are
falsy). -/
def pyTruthyInt (m : Option Int) : Bool :=
  match m with
  | none => false
  | some v => v != 0

/-- Embeds one iteration of the `get_user_tweets` loop: fetch the page, break
on an empty page, extend the accumulators, break (truncating with
`all_tweets[:max_results]`) when `max_results` is truthy and the count
reached it, break when `meta.next_token` is absent, otherwise continue with
the next page. -/
def get_user_tweets_step {τ μ : Type} (max_results : Option Int)
    (pages : Nat → TweetsPage τ μ) (s : TweetsState τ μ) : TweetsOutcome τ μ :=
  let data := pages s.page
  if data.tweets.isEmpty then .done s.allTweets s.allMedia
  else
    let all := s.allTweets ++ data.tweets
    let allMedia := s.allMedia ++ data.media
    if pyTruthyInt max_results = true ∧ (all.length : Int) ≥ max_results.getD 0 then
      .done (pySliceTo all (max_results.getD 0)) allMedia
    else
      match data.nextToken with
      | none => .done all allMedia
      | some _ => .running ⟨all, allMedia, s.page + 1⟩

/-- Fuel-driven runner for the `get_user_tweets` loop. -/
def get_user_tweets_run {τ μ : Type} (max_results : Option Int)
    (pages : Nat → TweetsPage τ μ) : Nat → TweetsState τ μ → TweetsOutcome τ μ
  | 0, s => .running s
  | fuel + 1, s =>
    match get_user_tweets_step max_results pages s with
    | .done t m => .done t m
    | .running s2 => get_user_tweets_run max_results pages fuel s2

/-- Embeds `get_user_tweets` itself: the loop starts with empty accumulators
at page 0. -/
def get_user_tweets {τ μ : Type} (max_results : Option Int)
    (pages : Nat → TweetsPage τ μ) (fuel : Nat) : TweetsOutcome τ μ :=
  get_user_tweets_run max_results pages fuel ⟨[], [], 0⟩

/-- One parsed arXiv feed page: `opensearch:totalResults` and the entries. -/
structure ArxivPage (ε : Type) where
  totalResults : Int
  entries : List ε

/-- Trace of a `query_arxiv` run: the returned `(entries, total_available)`
pair (`none` only when the fuel ran out) and the number of feed fetches
performed. -/
structure ArxivRun (ε : Type) where
  result : Option (List ε × Int)
  fetches : Nat

/-- `MAX_PAGE_SIZE` from `search_arxiv_and_download.py` line 27. -/
def MAX_PAGE_SIZE : Int := 2000

/-- Embeds the `query_arxiv` loop.  State: `collected`, `total_available`,
`current_start`, and the fetch index.  Each iteration recomputes the batch
size, fetches a page, updates `total_available`, breaks on an empty page,
extends `collected` and advances `current_start`, breaks on a short page or
when `current_start` reaches a nonzero `total_available`. -/
def query_arxiv_loop {ε : Type} (pages : Nat → ArxivPage ε)
    (target_count page_size : Int) :
    Nat → List ε → Int → Int → Nat → ArxivRun ε
  | 0, _, _, _, _ => ⟨none, 0⟩
  | fuel + 1, collected, total_available, current_start, fetchIdx =>
    if (collected.length : Int) < target_count then
      let batch_size := min (min page_size (target_count - collected.length)) MAX_PAGE_SIZE
      let page := pages fetchIdx
      let total2 := page.totalResults
      if page.entries.isEmpty then
        ⟨some (pySliceTo collected target_count, total2), 1⟩
      else
        let collected2 := collected ++ page.entries
        let cs2 := current_start + page.entries.length
        if (page.entries.length : Int) < batch_size then
          ⟨some (pySliceTo collected2 target_count, total2), 1⟩
        else if total2 ≠ 0 ∧ cs2 ≥ total2 then
          ⟨some (pySliceTo collected2 target_count, total2), 1⟩
        else
          let rest := query_arxiv_loop pages target_count page_size fuel
            collected2 total2 cs2 (fetchIdx + 1)
          ⟨rest.result, rest.fetches + 1⟩
    else ⟨some (pySliceTo collected target_count, total_available), 0⟩

/-- Embeds `query_arxiv`: empty accumulator, `total_available = 0`,
`current_start = start`. -/
def query_arxiv {ε : Type} (pages : Nat → ArxivPage ε)
    (target_count page_size start : Int) (fuel : Nat) : ArxivRun ε :=
  query_arxiv_loop pages target_count page_size fuel [] 0 start 0

/-- Page family for the C3 counterexample: every page carries one tweet and a
next-page token. -/
def c3Pages : Nat → TweetsPage String String := fun _ => ⟨["t1"], [], some "tok"⟩

/-- Page family for the C3 witness: one tweet per page, no next token. -/
def wTweetPages : Nat → TweetsPage String String := fun _ => ⟨["a"], [], none⟩

/-- ArXiv page family for the C3 witness: five reported results, one entry. -/
def wArxivOne : Nat → ArxivPage String := fun _ => ⟨5, ["e"]⟩

/-- ArXiv page family for the C3 witness: empty pages. -/
def wArxivEmpty : Nat → ArxivPage String := fun _ => ⟨0, []⟩

/-- ArXiv page family for the C3 witness: one reported result, one entry. -/
def wArxivHit : Nat → ArxivPage String := fun _ => ⟨1, ["e"]⟩

/-- JSON document values. -/
inductive JValue where
  | null
  | bool (b : Bool)
  | num (m : Int) (fracLen : Nat)
  | str (s : String)
  | arr (items : List JValue)
  | obj (fields : List (String × JValue))

/-- Python `item.get(key)` on an association-list dict. -/
def dictGet (fields : List (String × JValue)) (k : String) : Option JValue :=
  (fields.find? (fun p => p.1 == k)).map (fun p => p.2)

/-- Python `s.startswith(p)` as a structural character-list test. -/
def starts_with_chars : List Char → List Char → Bool
  | _, [] => true
  | [], _ :: _ => false
  | c :: cs, p :: ps => c == p && starts_with_chars cs ps

/-- Python `s.startswith(p)` on strings. -/
def py_startswith (s p : String) : Bool :=
  starts_with_chars s.data p.data

/-- URL keys probed by `pick_url` (`search_google_serp.py` line 446). -/
def url_key_candidates : List String := ["url", "link", "href", "target_url", "result_url"]

/-- Embeds `pick_url`: the first candidate key whose value is a string
starting with `http://` or `https://`. -/
def pick_url_from_keys (item : List (String × JValue)) : List String → Option String
  | [] => none
  | k :: rest =>
    match dictGet item k with
    | some (.str s) =>
      if py_startswith s "http://" || py_startswith s "https://" then some s
      else pick_url_from_keys item rest
    | _ => pick_url_from_keys item rest

/-- Embeds the title/snippet probing of `normalize_result`: the first
candidate key whose value is a string with nonempty strip, returned
stripped; otherwise the empty string. -/
def first_nonempty_text (item : List (String × JValue)) : List String → String
  | [] => ""
  | k :: rest =>
    match dictGet item k with
    | some (.str s) =>
      if trimChars s.data ≠ [] then String.mk (trimChars s.data)
      else first_nonempty_text item rest
    | _ => first_nonempty_text item rest

/-- Normalized SERP record (`normalize_result`'s result shape). -/
structure SerpRecord where
  rank : Nat
  title : String
  url : String
  snippet : String
  raw : List (String × JValue)

/-- Embeds `normalize_result` (`search_google_serp.py` lines 453-479). -/
def normalize_result (item : List (String × JValue)) (rank : Nat) : Option SerpRecord :=
  match pick_url_from_keys item url_key_candidates with
  | none => none
  | some url =>
    some ⟨rank, first_nonempty_text item ["title", "name", "headline"], url,
          first_nonempty_text item ["snippet", "description", "summary", "body"], item⟩

/-- Embeds the normalization/de-duplication loop of `search_google_serp.main`
(lines 785-800): stop at `max_results` records, skip non-dict items, skip
items without a URL, skip URLs already seen, otherwise append with rank
`len(normalized) + 1` and remember the URL. -/
def serp_collect_loop (max_results : Int) :
    List JValue → List SerpRecord → List String → List SerpRecord
  | [], normalized, _ => normalized
  | item :: rest, normalized, seen =>
    if (normalized.length : Int) ≥ max_results then normalized
    else
      match item with
      | .obj fields =>
        match normalize_result fields (normalized.length + 1) with
        | none => serp_collect_loop max_results rest normalized seen
        | some record =>
          if record.url ∈ seen then serp_collect_loop max_results rest normalized seen
          else serp_collect_loop max_results rest (normalized ++ [record]) (record.url :: seen)
      | _ => serp_collect_loop max_results rest normalized seen

/-- The normalized list `search_google_serp.main` builds from the raw result
items. -/
def serp_collect (max_results : Int) (raw_results : List JValue) : List SerpRecord :=
  serp_collect_loop max_results raw_results [] []

/-! ### LinkedIn post collection (claims C4, C6)

Embeds the scroll/collect loop of `scrape_linkedin_profile`
(`get_linkedin_posts_browserbase.py` lines 362-391) over abstract extraction
outcomes: for each DOM element, `extract_linkedin_post` either raises
(`raises` — the `except Exception: continue` path), returns `None` (`noPost`
— `post.get` then raises `AttributeError`, caught by the same handler), or
returns a post with optional `id`/`text` fields. -/

/-- Extracted LinkedIn post fields relevant to de-duplication. -/
structure LPost where
  id : Option String
  text : Option String
deriving DecidableEq

/-- Embeds `post.get("id") or post.get("text", "")[:50]`: a missing or empty
`id` falls back to the first 50 characters of the text. -/
def linkedin_post_key (p : LPost) : String :=
  match p.id with
  | some s => if s = "" then (p.text.getD "").take 50 else s
  | none => (p.text.getD "").take 50

/-- Outcome of processing one DOM post element. -/
inductive LElemOutcome where
  | raises
  | noPost
  | post (p : LPost)

/-- Embeds the inner `for post_el in post_elements` loop: break at
`max_posts`, skip raising elements and missing posts, skip keys already in
`seen_urns`, otherwise record the key and collect the post. -/
def linkedin_collect_inner (max_posts : Int) :
    List LElemOutcome → List LPost → List String → List LPost × List String
  | [], posts, seen => (posts, seen)
  | e :: rest, posts, seen =>
    if (posts.length : Int) ≥ max_posts then (posts, seen)
    else
      match e with
      | .raises => linkedin_collect_inner max_posts rest posts seen
      | .noPost => linkedin_collect_inner max_posts rest posts seen
      | .post p =>
        if linkedin_post_key p ∈ seen then linkedin_collect_inner max_posts rest posts seen
        else linkedin_collect_inner max_posts rest (posts ++ [p]) (linkedin_post_key p :: seen)

/-- Embeds the outer scroll loop (`while collected < max_posts and
scroll_attempts < max_scroll_attempts`); each pass processes the elements
found after one scroll. -/
def linkedin_scrape_loop (max_posts : Int) (passes : Nat → List LElemOutcome) :
    Nat → Nat → List LPost × List String → List LPost × List String
  | 0, _, st => st
  | fuel + 1, idx, st =>
    if (st.1.length : Int) < max_posts then
      linkedin_scrape_loop max_posts passes fuel (idx + 1)
        (linkedin_collect_inner max_posts (passes idx) st.1 st.2)
    else st

/-- The post list collected by `scrape_linkedin_profile`
(`max_scroll_attempts = 10`). -/
def linkedin_posts (max_posts : Int) (passes : Nat → List LElemOutcome) : List LPost :=
  (linkedin_scrape_loop max_posts passes 10 0 ([], [])).1

/-- Page family for the C4 counterexample: the same tweet id appears on two
consecutive pages (as the X API may deliver during pagination). -/
def c4Pages : Nat → TweetsPage String String :=
  fun i => if i = 0 then ⟨["t1"], [], some "tok"⟩ else ⟨["t1"], [], none⟩

/-- Page family for the C9 counterexample: one tweet, no next token. -/
def c9Pages : Nat → TweetsPage String String := fun _ => ⟨["t1"], [], none⟩

/-- One entry of a media object's `variants` list. -/
structure VideoVariant where
  content_type : Option String
  bit_rate : Option Int
  url : Option String
deriving DecidableEq

/-- Python `v.get("bit_rate", 0)`. -/
def variant_rate (v : VideoVariant) : Int := v.bit_rate.getD 0

/-- The `content_type == "video/mp4"` filter predicate. -/
def is_mp4 (v : VideoVariant) : Bool := v.content_type == some "video/mp4"

/-- Stable insertion of a variant into a rate-sorted list: the new element
goes after all existing elements of equal or smaller rate. -/
def insert_by_rate (v : VideoVariant) : List VideoVariant → List VideoVariant
  | [] => [v]
  | w :: rest =>
    if variant_rate w ≤ variant_rate v then w :: insert_by_rate v rest
    else v :: w :: rest

/-- Stable ascending sort by `bit_rate` — the effect of
`video_variants.sort(key=lambda v: v.get("bit_rate", 0))`. -/
def sort_by_rate : List VideoVariant → List VideoVariant
  | [] => []
  | v :: rest => insert_by_rate v (sort_by_rate rest)

/-- Embeds the `for variant in video_variants` selection loop: remember the
latest variant whose rate is within the budget, stop at the first that is
not. -/
def pick_under_loop (max_bitrate : Int) :
    List VideoVariant → Option VideoVariant → Option VideoVariant
  | [], sel => sel
  | v :: rest, sel =>
    if variant_rate v ≤ max_bitrate then pick_under_loop max_bitrate rest (some v)
    else sel

/-- Embeds `select_video_variant`. -/
def select_video_variant (variants : List VideoVariant) (max_bitrate : Int) :
    Option String :=
  if variants.isEmpty then none
  else
    let video_variants := variants.filter is_mp4
    if video_variants.isEmpty then none
    else
      let sorted := sort_by_rate video_variants
      let selected := pick_under_loop max_bitrate sorted none
      match selected with
      | some v => v.url
      | none =>
        match sorted.head? with
        | some v0 => v0.url
        | none => none

/-- Variant list for the C10 counterexample: a single mp4 variant with no
`url` field. -/
def c10Variants : List VideoVariant := [⟨some "video/mp4", some 100, none⟩]

/-- Variant lists for the C10 witness. -/
def wVariantsNoMp4 : List VideoVariant := [⟨some "application/x-mpegURL", some 1, some "pl"⟩]

/-- Two mp4 variants for the C10 witness: 100 bps and 900 bps. -/
def wVariantsTwo : List VideoVariant :=
  [⟨some "video/mp4", some 100, some "lo"⟩, ⟨some "video/mp4", some 900, some "hi"⟩]

/-- Character class of `re.sub(r"[^a-zA-Z0-9._-]+", "_", ...)`'s complement. -/
def is_safe_char (c : Char) : Bool :=
  c.isAlphanum || c == '.' || c == '_' || c == '-'

/-- Replaces each maximal run of unsafe characters by one underscore
(`re.sub(r"[^a-zA-Z0-9._-]+", "_", value)`); the flag records whether the
previous character was part of an unsafe run. -/
def sanitize_collapse : Bool → List Char → List Char
  | _, [] => []
  | prevUnsafe, c :: rest =>
    if is_safe_char c then c :: sanitize_collapse false rest
    else if prevUnsafe then sanitize_collapse true rest
    else '_' :: sanitize_collapse true rest

/-- Python `.strip("_")`. -/
def strip_underscores (cs : List Char) : List Char :=
  ((cs.dropWhile (fun c => c == '_')).reverse.dropWhile (fun c => c == '_')).reverse

/-- Shared body of `sanitize_fragment` (arXiv script, fallback `paper`) and
`sanitize_name` (SERP script, fallback `result`): collapse unsafe runs to
`_`, strip underscores, substitute the fallback when empty, truncate. -/
def sanitize_core (fallback : String) (max_len : Nat) (value : String) : String :=
  let cleaned := strip_underscores (sanitize_collapse false value.data)
  let cleaned := if cleaned = [] then fallback.data else cleaned
  String.mk (cleaned.take max_len)

/-- Embeds `sanitize_fragment`. -/
def sanitize_fragment (value : String) (max_len : Nat) : String :=
  sanitize_core "paper" max_len value

/-- Embeds `sanitize_name`. -/
def sanitize_name (text : String) (max_len : Nat) : String :=
  sanitize_core "result" max_len text

/-- Python `f"{n:0wd}"`: decimal digits zero-padded to width `w`. -/
def zero_pad (w : Nat) (s : List Char) : List Char :=
  List.replicate (w - s.length) '0' ++ s

/-- One parsed arXiv entry (the dict built by `parse_feed`, lines 97-111). -/
structure AEntry where
  title : String
  id_url : String
  arxiv_id : String
  published : String
  updated : String
  summary : String
  authors : List String
  categories : List String
  pdf_url : String
  download_status : String
  pdf_file : String
deriving DecidableEq

/-- The output filename `f"{i:04d}_{safe_id}.pdf"`. -/
def entry_pdf_name (i : Nat) (arxiv_id : String) : String :=
  String.mk (zero_pad 4 (Nat.toDigits 10 i)) ++ "_" ++ sanitize_fragment arxiv_id 80 ++ ".pdf"

/-- Outcome of one `download_pdf` call: returned, or raised with a message. -/
inductive DownloadOutcome where
  | success
  | failure (msg : String)

/-- Embeds one iteration of the `download_entries` loop (1-based index `i`):
set `pdf_file`, then mark `no_pdf_url` / `exists` / `downloaded` /
`error: ...` and report the `(downloaded, failed)` increments. -/
def process_entry (pdf_dir : String) (overwrite : Bool) (existsAt : Nat → Bool)
    (dl : Nat → DownloadOutcome) (i : Nat) (entry : AEntry) : AEntry × Nat × Nat :=
  let out_path := pdf_dir ++ "/" ++ entry_pdf_name i entry.arxiv_id
  let entry1 := { entry with pdf_file := out_path }
  if entry.pdf_url = "" then
    ({ entry1 with download_status := "no_pdf_url" }, 0, 1)
  else if existsAt i && !overwrite then
    ({ entry1 with download_status := "exists" }, 0, 0)
  else
    match dl i with
    | .success => ({ entry1 with download_status := "downloaded" }, 1, 0)
    | .failure msg => ({ entry1 with download_status := "error: " ++ msg }, 0, 1)

/-- Embeds the `download_entries` loop (`enumerate(entries, start=1)`),
returning the updated entries and the `(downloaded, failed)` totals. -/
def download_entries_go (pdf_dir : String) (overwrite : Bool) (existsAt : Nat → Bool)
    (dl : Nat → DownloadOutcome) : List AEntry → Nat → List AEntry × Nat × Nat
  | [], _ => ([], 0, 0)
  | e :: rest, i =>
    let step := process_entry pdf_dir overwrite existsAt dl i e
    let rest2 := download_entries_go pdf_dir overwrite existsAt dl rest (i + 1)
    (step.1 :: rest2.1, step.2.1 + rest2.2.1, step.2.2 + rest2.2.2)

/-- Embeds `download_entries`. -/
def download_entries (pdf_dir : String) (overwrite : Bool) (existsAt : Nat → Bool)
    (dl : Nat → DownloadOutcome) (entries : List AEntry) : List AEntry × Nat × Nat :=
  download_entries_go pdf_dir overwrite existsAt dl entries 1

/-- Outcome of fetching one result URL: a response (status code and
content type), or a raised exception with its message. -/
inductive FetchOutcome where
  | success (status_code : Option Int) (content_type : String)
  | failure (msg : String)

/-- The dict `fetch_and_save_html` returns. -/
structure FetchStatus where
  saved : Bool
  status_code : Option Int
  content_type : String
  error : Option String
deriving DecidableEq

/-- Embeds `fetch_and_save_html`: success always reports `saved = True`
(whether the body was HTML or the non-HTML wrapper was written); any
exception is swallowed into `saved = False` with the error message. -/
def fetch_and_save_html (o : FetchOutcome) : FetchStatus :=
  match o with
  | .success sc ct => ⟨true, sc, ct, none⟩
  | .failure msg => ⟨false, none, "", some msg⟩

/-- A normalized record after the save loop annotated it. -/
structure SerpSaved where
  record : SerpRecord
  local_file : String
  status : String
  fetch_error : Option String
  status_code : Option Int
  content_type : String

/-- Python `s or d` for strings. -/
def py_str_or (s d : String) : String := if s = "" then d else s

/-- The local filename `f"{rank:03d}_{domain}.html"`. -/
def serp_local_name (rank : Nat) (domain : String) : String :=
  String.mk (zero_pad 3 (Nat.toDigits 10 rank)) ++ "_" ++ domain ++ ".html"

/-- Embeds one iteration of the save loop of `search_google_serp.main`:
annotate the record from its own fetch status; the second component is the
`saved_count` increment. -/
def serp_save_record (netloc_of : String → String) (outcome : FetchOutcome)
    (record : SerpRecord) : SerpSaved × Bool :=
  let domain := sanitize_name (py_str_or (netloc_of record.url) "unknown") 60
  let name := serp_local_name record.rank domain
  let st := fetch_and_save_html outcome
  (⟨record, "html_results/" ++ name,
    if st.saved then "saved" else "failed",
    st.error, st.status_code, st.content_type⟩, st.saved)

/-- Embeds the save loop over all normalized records (fetch outcomes indexed
by position), returning the annotated records — all of which `main`
subsequently writes into `index.html` and `search_results.json` — and
`saved_count`. -/
def serp_save_loop (netloc_of : String → String) (outcomes : Nat → FetchOutcome) :
    List SerpRecord → Nat → List SerpSaved × Nat
  | [], _ => ([], 0)
  | r :: rest, j =>
    let step := serp_save_record netloc_of (outcomes j) r
    let rest2 := serp_save_loop netloc_of outcomes rest (j + 1)
    (step.1 :: rest2.1, (if step.2 then 1 else 0) + rest2.2)

/-- Concrete posts for the C6 witness. -/
def wPostA : LPost := ⟨some "a", none⟩

/-- Second concrete post for the C6 witness. -/
def wPostB : LPost := ⟨some "b", none⟩

/-- Concrete arXiv entry for the C6 witness. -/
def wEntry : AEntry :=
  ⟨"T", "http://arxiv.org/abs/1234.5", "1234.5", "2024", "2024", "s",
   ["A"], ["cs.AI"], "http://arxiv.org/pdf/1234.5", "pending", ""⟩

/-- Download outcomes for the C6 witness: the first entry's download raises,
the second succeeds. -/
def wDl : Nat → DownloadOutcome :=
  fun i => if i = 1 then .failure "boom" else .success

/-- Concrete SERP record for the C6 witness. -/
def wRecord : SerpRecord := ⟨1, "t", "http://example.com/x", "s", []⟩

/-- The JSON string delimiter. -/
def jsonQuote : Char := Char.ofNat 34

/-- The JSON escape character. -/
def jsonBackslash : Char := Char.ofNat 92

/-- JSON whitespace accepted between tokens. -/
def is_json_ws (c : Char) : Bool :=
  c == ' ' || c == Char.ofNat 10 || c == Char.ofNat 9 || c == Char.ofNat 13

/-- Skip inter-token whitespace. -/
def skip_ws (cs : List Char) : List Char := cs.dropWhile is_json_ws

/-- How `json.dumps(..., ensure_ascii=False)` writes one character. -/
def escape_char (c : Char) : List Char :=
  if c = jsonQuote then [jsonBackslash, jsonQuote]
  else if c = jsonBackslash then [jsonBackslash, jsonBackslash]
  else if c = Char.ofNat 10 then [jsonBackslash, 'n']
  else if c = Char.ofNat 13 then [jsonBackslash, 'r']
  else if c = Char.ofNat 9 then [jsonBackslash, 't']
  else if c = Char.ofNat 8 then [jsonBackslash, 'b']
  else if c = Char.ofNat 12 then [jsonBackslash, 'f']
  else if c.toNat < 32 then
    [jsonBackslash, 'u', '0', '0', Nat.digitChar (c.toNat / 16), Nat.digitChar (c.toNat % 16)]
  else [c]

/-- The escaped body of a string literal, closing quote included. -/
def escape_chars : List Char → List Char
  | [] => [jsonQuote]
  | c :: rest => escape_char c ++ escape_chars rest

/-- A serialized JSON string literal. -/
def serialize_string (s : String) : List Char :=
  jsonQuote :: escape_chars s.data

/-- Value of one hexadecimal digit. -/
def parse_hex_digit (c : Char) : Option Nat :=
  if c.isDigit then some (c.toNat - 48)
  else if 'a' ≤ c && c ≤ 'f' then some (c.toNat - 87)
  else if 'A' ≤ c && c ≤ 'F' then some (c.toNat - 55)
  else none

/-- The character named by a single-letter escape code. -/
def unescape_code (e : Char) : Option Char :=
  if e = jsonQuote then some jsonQuote
  else if e = jsonBackslash then some jsonBackslash
  else if e = 'n' then some (Char.ofNat 10)
  else if e = 'r' then some (Char.ofNat 13)
  else if e = 't' then some (Char.ofNat 9)
  else if e = 'b' then some (Char.ofNat 8)
  else if e = 'f' then some (Char.ofNat 12)
  else none

mutual

/-- Read a string-literal body up to and including the closing quote,
decoding escapes (`parse_string_escape` handles the character after a
backslash). -/
def parse_string_body : List Char → Option (List Char × List Char)
  | [] => none
  | c :: rest =>
    if c = jsonQuote then some ([], rest)
    else if c = jsonBackslash then parse_string_escape rest
    else (parse_string_body rest).map (fun p => (c :: p.1, p.2))

/-- Decode what follows a backslash inside a string literal and continue. -/
def parse_string_escape : List Char → Option (List Char × List Char)
  | [] => none
  | e :: rest2 =>
    match unescape_code e with
    | some d => (parse_string_body rest2).map (fun p => (d :: p.1, p.2))
    | none =>
      if e = 'u' then
        match rest2 with
        | h1 :: h2 :: h3 :: h4 :: rest3 =>
          match parse_hex_digit h1, parse_hex_digit h2,
                parse_hex_digit h3, parse_hex_digit h4 with
          | some a, some b, some c2, some d =>
            (parse_string_body rest3).map
              (fun p => (Char.ofNat (((a * 16 + b) * 16 + c2) * 16 + d) :: p.1, p.2))
          | _, _, _, _ => none
        | _ => none
      else none

end

/-- Big-endian decimal digits of `m_abs`, zero-padded on the high end so that
at least `fracLen + 1` digits exist (what `repr` prints for
`m_abs / 10 ^ fracLen` with `fracLen` forced fractional digits). -/
def num_digits (m_abs fracLen : Nat) : List Nat :=
  let ds := Nat.digits 10 m_abs
  (ds ++ List.replicate (fracLen + 1 - ds.length) 0).reverse

/-- Serialize a `JValue.num`: optional sign, integer digits, and — when
`fracLen > 0` — a point followed by exactly `fracLen` fractional digits. -/
def serialize_num (m : Int) (fracLen : Nat) : List Char :=
  let bigEnd := num_digits m.natAbs fracLen
  let intPart := bigEnd.take (bigEnd.length - fracLen)
  let fracPart := bigEnd.drop (bigEnd.length - fracLen)
  (if m < 0 then ['-'] else []) ++ intPart.map Nat.digitChar ++
    (if fracLen = 0 then [] else '.' :: fracPart.map Nat.digitChar)

/-- Value of a big-endian digit list. -/
def digits_val (ds : List Nat) : Nat := ds.foldl (fun a d => a * 10 + d) 0

/-- Read a nonempty maximal run of decimal digits. -/
def parse_digits (cs : List Char) : Option (List Nat × List Char) :=
  let ds := cs.takeWhile Char.isDigit
  if ds.isEmpty then none
  else some (ds.map (fun c => c.toNat - 48), cs.dropWhile Char.isDigit)

/-- Read the digit part of a JSON number after its sign: integer digits and
an optional fraction (the serializer never emits exponents). -/
def parse_number_digits (neg : Bool) (cs : List Char) : Option (JValue × List Char) :=
  match parse_digits cs with
  | none => none
  | some (intds, cs2) =>
    match cs2 with
    | c :: rest2 =>
      if c = '.' then
        match parse_digits rest2 with
        | none => none
        | some (fracds, cs3) =>
          some (.num ((if neg then -1 else 1) * (digits_val (intds ++ fracds) : Int))
            fracds.length, cs3)
      else some (.num ((if neg then -1 else 1) * (digits_val intds : Int)) 0, cs2)
    | [] => some (.num ((if neg then -1 else 1) * (digits_val intds : Int)) 0, [])

/-- Read a JSON number, sign included. -/
def parse_number (cs : List Char) : Option (JValue × List Char) :=
  match cs with
  | c :: rest =>
    if c = '-' then parse_number_digits true rest
    else parse_number_digits false cs
  | [] => parse_number_digits false []

/-- What may legally follow a serialized number so that the reader stops at
its end: nothing, or a character that is neither a digit nor a point. -/
def num_boundary : List Char → Prop
  | [] => True
  | c :: _ => c.isDigit = false ∧ c ≠ '.'

/-- The reader stops before `rest` when its first character is not a digit. -/
def leading_non_digit : List Char → Prop
  | [] => True
  | c :: _ => c.isDigit = false

/-- The opening brace of a JSON object. -/
def lbrace : Char := Char.ofNat 123

/-- The closing brace of a JSON object. -/
def rbrace : Char := Char.ofNat 125

/-- The separator `json.dumps(..., indent=2)` places before every item:
a newline followed by two spaces per nesting level. -/
def newline_indent (lvl : Nat) : List Char :=
  Char.ofNat 10 :: List.replicate (2 * lvl) ' '

mutual

/-- A size measure on documents that counts one unit per node, used as fuel
for the reader (`sizeOf` would count the magnitude of numeric payloads). -/
def jsize : JValue → Nat
  | .null => 1
  | .bool _ => 1
  | .num _ _ => 1
  | .str _ => 1
  | .arr items => jsizeL items + 1
  | .obj fields => jsizeM fields + 1

/-- Size of an item list. -/
def jsizeL : List JValue → Nat
  | [] => 0
  | v :: vs => jsize v + jsizeL vs + 1

/-- Size of a member list. -/
def jsizeM : List (String × JValue) → Nat
  | [] => 0
  | f :: fs => jsize f.2 + jsizeM fs + 1

end

mutual

/-- `json.dumps(value, indent=2, ensure_ascii=False)` at nesting level `lvl`:
scalars are atoms, nonempty containers put every item on its own indented
line and the closing bracket on a line indented to the enclosing level. -/
def serialize_value (lvl : Nat) : JValue → List Char
  | .null => ['n', 'u', 'l', 'l']
  | .bool b => if b then ['t', 'r', 'u', 'e'] else ['f', 'a', 'l', 's', 'e']
  | .num m f => serialize_num m f
  | .str s => serialize_string s
  | .arr [] => ['[', ']']
  | .arr (v :: vs) =>
    '[' :: (newline_indent (lvl + 1) ++ (serialize_value (lvl + 1) v ++
      (serialize_items_tail (lvl + 1) vs ++ (newline_indent lvl ++ [']']))))
  | .obj [] => [lbrace, rbrace]
  | .obj (f :: fs) =>
    lbrace :: (newline_indent (lvl + 1) ++ (serialize_member_chars (lvl + 1) f ++
      (serialize_members_tail (lvl + 1) fs ++ (newline_indent lvl ++ [rbrace]))))

/-- The items of an array after the first: each preceded by a comma and an
indented newline. -/
def serialize_items_tail (lvl : Nat) : List JValue → List Char
  | [] => []
  | v :: vs =>
    ',' :: (newline_indent lvl ++ (serialize_value lvl v ++ serialize_items_tail lvl vs))

/-- One `"key": value` member. -/
def serialize_member_chars (lvl : Nat) (f : String × JValue) : List Char :=
  serialize_string f.1 ++ (':' :: (' ' :: serialize_value lvl f.2))

/-- The members of an object after the first. -/
def serialize_members_tail (lvl : Nat) : List (String × JValue) → List Char
  | [] => []
  | f :: fs =>
    ',' :: (newline_indent lvl ++ (serialize_member_chars lvl f ++ serialize_members_tail lvl fs))

end

mutual

/-- A recursive-descent JSON reader (`json.loads` on the fragment the
serializer emits), driven by a fuel parameter: dispatch on the first
non-whitespace character. -/
def parse_value : Nat → List Char → Option (JValue × List Char)
  | 0, _ => none
  | fuel + 1, s =>
    match skip_ws s with
    | [] => none
    | c :: rest =>
      if c = 'n' then
        if rest.take 3 = ['u', 'l', 'l'] then some (.null, rest.drop 3) else none
      else if c = 't' then
        if rest.take 3 = ['r', 'u', 'e'] then some (.bool true, rest.drop 3) else none
      else if c = 'f' then
        if rest.take 4 = ['a', 'l', 's', 'e'] then some (.bool false, rest.drop 4) else none
      else if c = jsonQuote then
        (parse_string_body rest).map (fun p => (.str (String.mk p.1), p.2))
      else if c = '[' then
        match skip_ws rest with
        | [] => none
        | c2 :: rest2 =>
          if c2 = ']' then some (.arr [], rest2)
          else
            match parse_value fuel (c2 :: rest2) with
            | none => none
            | some (v, r) =>
              match parse_elems_tail fuel r with
              | none => none
              | some (vs, r2) => some (.arr (v :: vs), r2)
      else if c = lbrace then
        match skip_ws rest with
        | [] => none
        | c2 :: rest2 =>
          if c2 = rbrace then some (.obj [], rest2)
          else
            match parse_member fuel (c2 :: rest2) with
            | none => none
            | some (f, r) =>
              match parse_members_tail fuel r with
              | none => none
              | some (fs, r2) => some (.obj (f :: fs), r2)
      else parse_number (c :: rest)

/-- After one array item: a closing bracket ends the array, a comma
introduces the next item. -/
def parse_elems_tail : Nat → List Char → Option (List JValue × List Char)
  | 0, _ => none
  | fuel + 1, s =>
    match skip_ws s with
    | [] => none
    | c :: rest =>
      if c = ']' then some ([], rest)
      else if c = ',' then
        match parse_value fuel rest with
        | none => none
        | some (v, r) =>
          match parse_elems_tail fuel r with
          | none => none
          | some (vs, r2) => some (v :: vs, r2)
      else none

/-- One `"key": value` member. -/
def parse_member : Nat → List Char → Option ((String × JValue) × List Char)
  | 0, _ => none
  | fuel + 1, s =>
    match skip_ws s with
    | [] => none
    | c :: rest =>
      if c = jsonQuote then
        match parse_string_body rest with
        | none => none
        | some (k, r) =>
          match skip_ws r with
          | [] => none
          | c2 :: r2 =>
            if c2 = ':' then
              match parse_value fuel r2 with
              | none => none
              | some (v, r3) => some ((String.mk k, v), r3)
            else none
      else none

/-- After one object member: a closing brace ends the object, a comma
introduces the next member. -/
def parse_members_tail : Nat → List Char → Option (List (String × JValue) × List Char)
  | 0, _ => none
  | fuel + 1, s =>
    match skip_ws s with
    | [] => none
    | c :: rest =>
      if c = rbrace then some ([], rest)
      else if c = ',' then
        match parse_member fuel rest with
        | none => none
        | some (f, r) =>
          match parse_members_tail fuel r with
          | none => none
          | some (fs, r2) => some (f :: fs, r2)
      else none

end

/-- The full text a script hands to `f.write`: the document serialized from
the top level. -/
def json_dumps (v : JValue) : List Char := serialize_value 0 v

/-- `json.loads` on a complete text: read one value, allow trailing
whitespace, reject anything else left over. -/
def json_loads (cs : List Char) : Option JValue :=
  match parse_value (cs.length + 1) cs with
  | none => none
  | some (v, rest) => if skip_ws rest = [] then some v else none

theorem load_env_file_frame_aux (lines : List String) (env : EnvMap) (k : String)
    (v : String) (h : env k = some v) : load_env_file lines env k = some v := by
  induction lines generalizing env with
  | nil => simpa [load_env_file] using h
  | cons line rest ih =>
    simp only [load_env_file]
    cases hp : parse_env_line line with
    | none => exact ih env h
    | some kv =>
      obtain ⟨k2, v2⟩ := kv
      by_cases hmem : (env k2).isSome
      · simp only [hmem, if_true]
        exact ih env h
      · simp only [hmem, if_false]
        apply ih
        have hk : k ≠ k2 := by
          intro hk
          rw [← hk, h] at hmem
          simp at hmem
        simp [envSet, hk, h]

theorem load_env_file_fill_aux (lines : List String) (env : EnvMap) (k : String)
    (h : env k = none) :
    load_env_file lines env k = first_env_assignment lines k := by
  induction lines generalizing env with
  | nil => simpa [load_env_file, first_env_assignment] using h
  | cons line rest ih =>
    simp only [load_env_file, first_env_assignment]
    cases hp : parse_env_line line with
    | none => exact ih env h
    | some kv =>
      obtain ⟨k2, v2⟩ := kv
      by_cases hk : k2 = k
      · subst hk
        simp only [h, Option.isSome_none, Bool.false_eq_true, if_false, if_true]
        exact load_env_file_frame_aux rest _ k2 v2 (by simp [envSet])
      · simp only [hk, if_false]
        by_cases hmem : (env k2).isSome
        · simp only [hmem, if_true]
          exact ih env h
        · simp only [hmem, if_false]
          apply ih
          have hkk : k ≠ k2 := fun hkk => hk hkk.symm
          simp [envSet, hkk, h]

/-- C8: `load_env_file` never overwrites a variable that is already present
(even one set to the empty string); a key absent from the environment receives
the value of the first `.env` line that assigns it, stripped and with one
level of surrounding quotes removed (as recorded by `parse_env_line` /
`first_env_assignment`). -/
theorem load_env_file_no_overwrite (lines : List String) (env : EnvMap) (k : String) :
    (∀ v, env k = some v → load_env_file lines env k = some v) ∧
    (env k = none → load_env_file lines env k = first_env_assignment lines k) :=
  ⟨fun v h => load_env_file_frame_aux lines env k v h,
   fun h => load_env_file_fill_aux lines env k h⟩

/-- Witness for C8: on a concrete environment and file, the present key keeps
its old value and the absent key receives the quoted value with the quotes
stripped. -/
theorem load_env_file_no_overwrite_witness :
    load_env_file envFileWitness envWitness "PRESENT" = some "old" ∧
    load_env_file envFileWitness envWitness "FRESH" = some "hello" := by
  constructor
  · exact (load_env_file_no_overwrite envFileWitness envWitness "PRESENT").1 "old" (by decide)
  · have h := (load_env_file_no_overwrite envFileWitness envWitness "FRESH").2 (by decide)
    rw [h]
    decide

/-! ### Credential checks (claim C5)

Embeds `get_bearer_token` (`get_user_posts.py` lines 57-64),
`get_browserbase_credentials` / `get_linkedin_credentials`
(`get_linkedin_posts_browserbase.py` lines 54-64 and 128-138),
`build_auth_headers` (`search_google_serp.py` lines 335-351) and the
`--base-url` preflight of `search_google_serp.main` (lines 700-705).
`sys.exit(1)` after printing to stderr is modelled as
`Except.error (code, stderrLines)`; the `Except` bind order mirrors the fact
that in each script the checks run before any network request is issued. -/

/-- Counterexample to C5 as stated: with the SERP API credentials
(`GOOGLE_SERP_API_KEY`, `GOOGLE_SERP_BEARER_TOKEN`) absent from the
environment, `search_google_serp` does not exit — `build_auth_headers` simply
omits the auth headers and `main` proceeds to issue the search request.  Only
a missing base URL aborts the script. -/
theorem serp_missing_api_key_does_not_exit :
    envSerpNoKey "GOOGLE_SERP_API_KEY" = none ∧
    envSerpNoKey "GOOGLE_SERP_BEARER_TOKEN" = none ∧
    serp_preflight envSerpNoKey none =
      .ok ("http://api.example",
           [("Accept", "application/json"),
            ("User-Agent", "Python Google SERP Client")]) :=
  ⟨rfl, rfl, rfl⟩

/-- C5 (amended): for the X script, an unset or empty `X_BEARER_TOKEN` makes
`get_bearer_token` exit with status 1 and a stderr message; for the LinkedIn
script, a missing Browserbase credential or a missing LinkedIn credential
makes the prologue exit with status 1 and a stderr message (the checks run
before any network activity); for the SERP script the required setting is the
base URL — when it is missing or empty the script exits with status 1 and a
stderr message, while a missing API key or bearer token never causes an exit
(the script proceeds with the auth headers omitted). -/
theorem missing_credentials_exit (env : EnvMap) :
    (pyTruthy (env "X_BEARER_TOKEN") = false →
      get_bearer_token env =
        .error (1, ["Error: X_BEARER_TOKEN environment variable is not set.",
                    "Get your token from https://developer.x.com/"])) ∧
    ((pyTruthy (env "BROWSERBASE_API_KEY") = false ∨
      pyTruthy (env "BROWSERBASE_PROJECT_ID") = false) →
      scrape_linkedin_credentials env =
        .error (1, ["Error: BROWSERBASE_API_KEY and BROWSERBASE_PROJECT_ID must be set.",
                    "Add them to your .env file or set as environment variables."])) ∧
    ((pyTruthy (env "LINKEDIN_EMAIL") = false ∨
      pyTruthy (env "LINKEDIN_PASSWORD") = false) →
      (∃ msgs, scrape_linkedin_credentials env = .error (1, msgs))) ∧
    (pyTruthy (env "GOOGLE_SERP_BASE_URL") = false →
      serp_preflight env none =
        .error (1, ["Error: missing --base-url (or GOOGLE_SERP_BASE_URL in environment)."])) ∧
    (∀ url : String, url ≠ "" →
      serp_preflight env (some url) = .ok (url, build_auth_headers env)) := by
  refine ⟨?_, ?_, ?_, ?_, ?_⟩
  · intro h
    simp [get_bearer_token, h]
  · intro h
    rcases h with h | h <;>
      simp [scrape_linkedin_credentials, get_browserbase_credentials, h, Bind.bind, Except.bind]
  · intro h
    by_cases hbb : (!pyTruthy (env "BROWSERBASE_API_KEY") ||
                    !pyTruthy (env "BROWSERBASE_PROJECT_ID")) = true
    · refine ⟨["Error: BROWSERBASE_API_KEY and BROWSERBASE_PROJECT_ID must be set.",
               "Add them to your .env file or set as environment variables."], ?_⟩
      simp [scrape_linkedin_credentials, get_browserbase_credentials, hbb,
            Bind.bind, Except.bind]
    · refine ⟨["Error: LINKEDIN_EMAIL and LINKEDIN_PASSWORD must be set.",
               "Add them to your .env file or set as environment variables."], ?_⟩
      simp only [scrape_linkedin_credentials, get_browserbase_credentials, hbb,
                 Bind.bind, Except.bind, if_false]
      rcases h with h | h <;>
        simp [get_linkedin_credentials, h]
  · intro h
    simp [serp_preflight, h]
  · intro url hurl
    have : pyTruthy (some url) = true := by
      simp [pyTruthy, hurl]
    simp [serp_preflight, this]

/-- Witness for C5 (amended): on a concrete environment with every credential
missing but a CLI base URL supplied, each conjunct fires. -/
theorem missing_credentials_exit_witness :
    get_bearer_token (fun _ => none) =
      .error (1, ["Error: X_BEARER_TOKEN environment variable is not set.",
                  "Get your token from https://developer.x.com/"]) ∧
    scrape_linkedin_credentials (fun _ => none) =
      .error (1, ["Error: BROWSERBASE_API_KEY and BROWSERBASE_PROJECT_ID must be set.",
                  "Add them to your .env file or set as environment variables."]) ∧
    serp_preflight (fun _ => none) none =
      .error (1, ["Error: missing --base-url (or GOOGLE_SERP_BASE_URL in environment)."]) ∧
    serp_preflight (fun _ => none) (some "http://u") =
      .ok ("http://u", build_auth_headers (fun _ => none)) :=
  ⟨(missing_credentials_exit (fun _ => none)).1 rfl,
   (missing_credentials_exit (fun _ => none)).2.1 (Or.inl rfl),
   (missing_credentials_exit (fun _ => none)).2.2.2.1 rfl,
   (missing_credentials_exit (fun _ => none)).2.2.2.2 "http://u" (by decide)⟩

/-! ### Retrying HTTP helpers (claims C1, C2)

Embeds `request_json` (`search_google_serp.py` lines 259-332, together with
`parse_retry_after_seconds`, lines 226-245), `request_feed`
(`search_arxiv_and_download.py` lines 115-164) and `make_request`
(`get_user_posts.py` lines 67-85).

A network interaction is a function from the attempt index to the attempt's
outcome.  An `httpErr` carries the numeric value denoted by its `Retry-After`
header (`none` when the header is absent or unparseable).  The jitter drawn by
`random.uniform(0.0, max(0.0, retry_jitter))` at each attempt is an input
function, constrained to its interval by hypothesis where claims need it.
`time.sleep` durations are recorded in order in `sleeps`. -/

theorem request_json_loop_spec {α : Type} (responses : Nat → HttpAttempt α)
    (jitter : Nat → ℚ) (backoff : ℚ) (attempts : Nat) :
    ∀ fuel attempt, fuel + attempt = attempts → 0 < fuel →
      (request_json_loop responses jitter backoff attempts fuel attempt).attemptsUsed =
        (request_json_loop responses jitter backoff attempts fuel attempt).sleeps.length + 1 ∧
      (request_json_loop responses jitter backoff attempts fuel attempt).attemptsUsed ≤ fuel ∧
      ∀ k, k < (request_json_loop responses jitter backoff attempts fuel attempt).sleeps.length →
        (request_json_loop responses jitter backoff attempts fuel attempt).sleeps.get? k =
          some (retry_sleep_at responses jitter backoff (attempt + k)) := by
  intro fuel
  induction fuel with
  | zero => intro attempt _ h; omega
  | succ f ih =>
    intro attempt hsum _
    cases hresp : responses attempt with
    | ok v =>
      simp [request_json_loop, hresp]
    | httpErr code ra body =>
      by_cases hc : code ∈ RETRYABLE_HTTP_CODES ∧ attempt < attempts - 1
      · have hf : 0 < f := by omega
        have hsum2 : f + (attempt + 1) = attempts := by omega
        obtain ⟨ih1, ih2, ih3⟩ := ih (attempt + 1) hsum2 hf
        simp only [request_json_loop, hresp, hc, if_true]
        refine ⟨by simpa using ih1, by simpa using Nat.succ_le_succ ih2, ?_⟩
        intro k hk
        cases k with
        | zero =>
          simp [retry_sleep_at, hresp]
        | succ j =>
          have hk2 : j < (request_json_loop responses jitter backoff attempts f
              (attempt + 1)).sleeps.length := by
            simpa using hk
          have h3 := ih3 j hk2
          have heq : attempt + (j + 1) = attempt + 1 + j := by omega
          simp only [List.get?_cons_succ, heq]
          exact h3
      · simp only [request_json_loop, hresp, hc, if_false]
        exact ⟨rfl, by omega, by intro k hk; simp at hk⟩
    | urlErr reason =>
      by_cases hc : attempt < attempts - 1
      · have hf : 0 < f := by omega
        have hsum2 : f + (attempt + 1) = attempts := by omega
        obtain ⟨ih1, ih2, ih3⟩ := ih (attempt + 1) hsum2 hf
        simp only [request_json_loop, hresp, hc, if_true]
        refine ⟨by simpa using ih1, by simpa using Nat.succ_le_succ ih2, ?_⟩
        intro k hk
        cases k with
        | zero =>
          simp [retry_sleep_at, hresp]
        | succ j =>
          have hk2 : j < (request_json_loop responses jitter backoff attempts f
              (attempt + 1)).sleeps.length := by
            simpa using hk
          have h3 := ih3 j hk2
          have heq : attempt + (j + 1) = attempt + 1 + j := by omega
          simp only [List.get?_cons_succ, heq]
          exact h3
      · simp only [request_json_loop, hresp, hc, if_false]
        exact ⟨rfl, by omega, by intro k hk; simp at hk⟩

/-- C2: `request_json` issues at most `max_retries + 1` attempts, exactly one
more attempt than it sleeps, and the sleep before 1-based retry number `k`
(0-based list index `k - 1`) when no `Retry-After` applies equals
`retry_backoff * 2 ^ (k - 1)` plus a jitter drawn from
`[0, max 0 retry_jitter]` — so the base backoff doubles on each successive
retry. -/
theorem request_json_backoff_spec {α : Type} (responses : Nat → HttpAttempt α)
    (jitter : Nat → ℚ) (max_retries : Int) (retry_backoff retry_jitter : ℚ)
    (hmr : 0 ≤ max_retries) (hb : 0 ≤ retry_backoff)
    (hj : ∀ i, 0 ≤ jitter i ∧ jitter i ≤ max 0 retry_jitter) :
    (request_json responses jitter max_retries retry_backoff).attemptsUsed ≤
      max_retries.toNat + 1 ∧
    (request_json responses jitter max_retries retry_backoff).attemptsUsed =
      (request_json responses jitter max_retries retry_backoff).sleeps.length + 1 ∧
    ∀ k, k < (request_json responses jitter max_retries retry_backoff).sleeps.length →
      no_retry_after (responses k) →
      ∃ j, 0 ≤ j ∧ j ≤ max 0 retry_jitter ∧
        (request_json responses jitter max_retries retry_backoff).sleeps.get? k =
          some (retry_backoff * 2 ^ k + j) := by
  have hmax : max 0 max_retries = max_retries := max_eq_right hmr
  obtain ⟨h1, h2, h3⟩ := request_json_loop_spec responses jitter retry_backoff
    ((max 0 max_retries).toNat + 1) ((max 0 max_retries).toNat + 1) 0 (by omega) (by omega)
  refine ⟨?_, ?_, ?_⟩
  · simpa [request_json, hmax] using h2
  · simpa [request_json] using h1
  · intro k hk hnra
    have hget := h3 k (by simpa [request_json] using hk)
    simp only [Nat.zero_add] at hget
    refine ⟨jitter k, (hj k).1, (hj k).2, ?_⟩
    have hpos : 0 ≤ retry_backoff * 2 ^ k + jitter k := by
      have : (0:ℚ) ≤ retry_backoff * 2 ^ k := by positivity
      have := (hj k).1
      linarith
    have hretry : retry_sleep_at responses jitter retry_backoff k =
        retry_backoff * 2 ^ k + jitter k := by
      unfold retry_sleep_at
      cases hr : responses k with
      | ok v => simp [max_eq_right hpos]
      | httpErr code ra body =>
        rw [hr] at hnra
        unfold no_retry_after at hnra
        simp [hnra, parse_retry_after_seconds, max_eq_right hpos]
      | urlErr reason => simp [max_eq_right hpos]
    rw [← hretry]
    simpa [request_json] using hget

/-- Witness for C2 at a concrete run: at most three attempts for
`max_retries = 2`, one more attempt than sleeps, and the first retry slept
`retry_backoff * 2 ^ 0` plus an in-range jitter. -/
theorem request_json_backoff_spec_witness :
    (request_json c2Responses (fun _ => (0:ℚ)) 2 2).attemptsUsed ≤ 3 ∧
    (request_json c2Responses (fun _ => (0:ℚ)) 2 2).attemptsUsed =
      (request_json c2Responses (fun _ => (0:ℚ)) 2 2).sleeps.length + 1 ∧
    ∃ j, 0 ≤ j ∧ j ≤ max 0 (0:ℚ) ∧
      (request_json c2Responses (fun _ => (0:ℚ)) 2 2).sleeps.get? 0 =
        some (2 * 2 ^ 0 + j) := by
  obtain ⟨h1, h2, h3⟩ := request_json_backoff_spec c2Responses (fun _ => (0:ℚ)) 2 2 0
    (by norm_num) (by norm_num) (fun i => by norm_num)
  refine ⟨by simpa using h1, h2, ?_⟩
  refine h3 0 ?_ ?_
  · decide
  · simp [c2Responses, no_retry_after]

/-- Counterexample to C1 as stated: in the arXiv script, a retryable HTTP 429
whose `Retry-After` header is present and parseable (value 7 seconds) is
retried after sleeping the exponential-backoff value
`retry_backoff * 2 ^ 0 = 5`, not the header value — `request_feed` never
reads `Retry-After`. -/
theorem request_feed_ignores_retry_after :
    parse_retry_after_seconds (some 7) = some 7 ∧
    (request_feed c1Responses 1 5).sleeps = [5] ∧
    (request_feed c1Responses 1 5).result = .ok () ∧
    ((5:ℚ) ≠ 7) := by
  refine ⟨?_, ?_, ?_, by norm_num⟩
  · simp [parse_retry_after_seconds]
  · have h : (request_feed c1Responses 1 5).sleeps = [5 * 2 ^ (1 - 1)] := rfl
    rw [h]
    norm_num
  · rfl

/-- C1 (amended): `request_json` (SERP script) retries a status in
{429, 500, 502, 503, 504} while attempts remain, sleeping the parsed
`Retry-After` value when present and parseable and the exponential-backoff
fallback otherwise; `request_feed` (arXiv script) retries the same class
while attempts remain but always sleeps the pure exponential backoff,
ignoring `Retry-After`; in both helpers any other HTTP status raises
immediately with no sleep, as does a retryable status once attempts are
exhausted, after which each script's `main` exits with status 1;
`make_request` (X script) never retries: any HTTP error exits the process
with status 1 at once. -/
theorem http_error_retry_policy :
    (∀ (α : Type) (responses : Nat → HttpAttempt α) (jitter : Nat → ℚ)
        (backoff : ℚ) (attempts fuel attempt code : Nat) (ra : Option ℚ) (body : String),
      responses attempt = .httpErr code ra body →
      code ∈ RETRYABLE_HTTP_CODES → attempt < attempts - 1 →
      request_json_loop responses jitter backoff attempts (fuel + 1) attempt =
        ⟨(request_json_loop responses jitter backoff attempts fuel (attempt + 1)).result,
         max 0 ((parse_retry_after_seconds ra).getD (backoff * 2 ^ attempt + jitter attempt)) ::
           (request_json_loop responses jitter backoff attempts fuel (attempt + 1)).sleeps,
         (request_json_loop responses jitter backoff attempts fuel (attempt + 1)).attemptsUsed + 1⟩) ∧
    (∀ (α : Type) (responses : Nat → HttpAttempt α) (jitter : Nat → ℚ)
        (backoff : ℚ) (attempts fuel attempt code : Nat) (ra : Option ℚ) (body : String),
      responses attempt = .httpErr code ra body →
      code ∉ RETRYABLE_HTTP_CODES →
      request_json_loop responses jitter backoff attempts (fuel + 1) attempt =
        ⟨.error (.httpStatus code body), [], 1⟩) ∧
    (∀ (α : Type) (responses : Nat → HttpAttempt α) (jitter : Nat → ℚ)
        (backoff : ℚ) (attempts fuel attempt code : Nat) (ra : Option ℚ) (body : String),
      responses attempt = .httpErr code ra body →
      ¬attempt < attempts - 1 →
      request_json_loop responses jitter backoff attempts (fuel + 1) attempt =
        ⟨.error (.httpStatus code body), [], 1⟩) ∧
    (∀ (α : Type) (e : ReqError), serp_main_search_exit_code (α := α) (.error e) = some 1) ∧
    (∀ (α : Type) (responses : Nat → HttpAttempt α)
        (backoff : ℚ) (attempts : Int) (fuel attempt code : Nat) (ra : Option ℚ) (body : String),
      responses attempt = .httpErr code ra body →
      code ∈ RETRYABLE_HTTP_CODES → (attempt : Int) < attempts →
      request_feed_loop responses backoff attempts (fuel + 1) attempt =
        ⟨(request_feed_loop responses backoff attempts fuel (attempt + 1)).result,
         backoff * 2 ^ (attempt - 1) ::
           (request_feed_loop responses backoff attempts fuel (attempt + 1)).sleeps,
         (request_feed_loop responses backoff attempts fuel (attempt + 1)).attemptsUsed + 1⟩) ∧
    (∀ (α : Type) (responses : Nat → HttpAttempt α)
        (backoff : ℚ) (attempts : Int) (fuel attempt code : Nat) (ra : Option ℚ) (body : String),
      responses attempt = .httpErr code ra body →
      code ∉ RETRYABLE_HTTP_CODES →
      request_feed_loop responses backoff attempts (fuel + 1) attempt =
        ⟨.error (.httpStatus code body), [], 1⟩) ∧
    (∀ (α : Type) (responses : Nat → HttpAttempt α)
        (backoff : ℚ) (attempts : Int) (fuel attempt code : Nat) (ra : Option ℚ) (body : String),
      responses attempt = .httpErr code ra body →
      ¬(attempt : Int) < attempts →
      request_feed_loop responses backoff attempts (fuel + 1) attempt =
        ⟨.error (.httpStatus code body), [], 1⟩) ∧
    (∀ (α : Type) (e : ReqError), arxiv_main_search_exit_code (α := α) (.error e) = some 1) ∧
    (∀ (α : Type) (code : Nat) (ra : Option ℚ) (body : String),
      make_request (α := α) (.httpErr code ra body) = .exited 1) ∧
    (∀ (α : Type) (reason : String), make_request (α := α) (.urlErr reason) = .exited 1) := by
  refine ⟨?_, ?_, ?_, ?_, ?_, ?_, ?_, ?_, ?_, ?_⟩
  · intro α responses jitter backoff attempts fuel attempt code ra body hresp hcode hlt
    simp only [request_json_loop, hresp]
    rw [if_pos ⟨hcode, hlt⟩]
  · intro α responses jitter backoff attempts fuel attempt code ra body hresp hcode
    simp only [request_json_loop, hresp]
    rw [if_neg (fun h => hcode h.1)]
  · intro α responses jitter backoff attempts fuel attempt code ra body hresp hlt
    simp only [request_json_loop, hresp]
    rw [if_neg (fun h => hlt h.2)]
  · intro α e
    rfl
  · intro α responses backoff attempts fuel attempt code ra body hresp hcode hlt
    simp only [request_feed_loop, hresp]
    rw [if_pos ⟨hcode, hlt⟩]
  · intro α responses backoff attempts fuel attempt code ra body hresp hcode
    simp only [request_feed_loop, hresp]
    rw [if_neg (fun h => hcode h.1)]
  · intro α responses backoff attempts fuel attempt code ra body hresp hlt
    simp only [request_feed_loop, hresp]
    rw [if_neg (fun h => hlt h.2)]
  · intro α e
    rfl
  · intro α code ra body
    rfl
  · intro α reason
    rfl

/-- Witness for C1 (amended), exercising every conjunct at concrete inputs. -/
theorem http_error_retry_policy_witness :
    (request_json_loop c1WitnessResponses (fun _ => (0:ℚ)) 2 4 4 0 =
      ⟨(request_json_loop c1WitnessResponses (fun _ => (0:ℚ)) 2 4 3 1).result,
       max 0 ((parse_retry_after_seconds (some 7)).getD (2 * 2 ^ 0 + 0)) ::
         (request_json_loop c1WitnessResponses (fun _ => (0:ℚ)) 2 4 3 1).sleeps,
       (request_json_loop c1WitnessResponses (fun _ => (0:ℚ)) 2 4 3 1).attemptsUsed + 1⟩) ∧
    (request_json_loop c1WitnessResponses (fun _ => (0:ℚ)) 2 4 3 1 =
      ⟨.error (.httpStatus 404 "missing"), [], 1⟩) ∧
    (request_json_loop c1WitnessResponses (fun _ => (0:ℚ)) 2 1 1 0 =
      ⟨.error (.httpStatus 429 "slow down"), [], 1⟩) ∧
    serp_main_search_exit_code (α := Unit) (.error .requestFailed) = some 1 ∧
    (request_feed_loop c1WitnessResponses 5 2 2 0 =
      ⟨(request_feed_loop c1WitnessResponses 5 2 1 1).result,
       5 * 2 ^ (0 - 1) :: (request_feed_loop c1WitnessResponses 5 2 1 1).sleeps,
       (request_feed_loop c1WitnessResponses 5 2 1 1).attemptsUsed + 1⟩) ∧
    (request_feed_loop c1WitnessResponses 5 2 1 1 =
      ⟨.error (.httpStatus 404 "missing"), [], 1⟩) ∧
    (request_feed_loop c1WitnessResponses 5 0 1 0 =
      ⟨.error (.httpStatus 429 "slow down"), [], 1⟩) ∧
    arxiv_main_search_exit_code (α := Unit) (.error .requestFailed) = some 1 ∧
    make_request (α := Unit) (.httpErr 500 none "e") = .exited 1 ∧
    make_request (α := Unit) (.urlErr "down") = .exited 1 := by
  obtain ⟨h1, h2, h3, h4, h5, h6, h7, h8, h9, h10⟩ := http_error_retry_policy
  refine ⟨?_, ?_, ?_, h4 Unit .requestFailed, ?_, ?_, ?_,
          h8 Unit .requestFailed, h9 Unit 500 none "e", h10 Unit "down"⟩
  · exact h1 Unit c1WitnessResponses (fun _ => (0:ℚ)) 2 4 3 0 429 (some 7) "slow down"
      rfl (by decide) (by decide)
  · exact h2 Unit c1WitnessResponses (fun _ => (0:ℚ)) 2 4 2 1 404 none "missing"
      rfl (by decide)
  · exact h3 Unit c1WitnessResponses (fun _ => (0:ℚ)) 2 1 0 0 429 (some 7) "slow down"
      rfl (by decide)
  · exact h5 Unit c1WitnessResponses 5 2 1 0 429 (some 7) "slow down"
      rfl (by decide) (by decide)
  · exact h6 Unit c1WitnessResponses 5 2 0 1 404 none "missing"
      rfl (by decide)
  · exact h7 Unit c1WitnessResponses 5 0 0 0 429 (some 7) "slow down"
      rfl (by decide)

/-! ### Pagination loops (claims C3, C9, C4)

Embeds the `while True` pagination loop of `get_user_tweets`
(`get_user_posts.py` lines 107-169) and the `while len(collected) <
target_count` loop of `query_arxiv` (`search_arxiv_and_download.py` lines
167-219).  A page of server responses is an input indexed by fetch number.
Both loops are given as a step/runner pair driven by explicit fuel so that
non-termination is expressible; the claims then show which fuel suffices.
The post-loop media filtering of `get_user_tweets` (lines 171-181) is not
modelled — no claim refers to it. -/

theorem get_user_tweets_step_running {τ μ : Type} (mr : Option Int)
    (pages : Nat → TweetsPage τ μ) (s s2 : TweetsState τ μ)
    (h : get_user_tweets_step mr pages s = .running s2) :
    (pages s.page).tweets ≠ [] ∧
    s2.allTweets = s.allTweets ++ (pages s.page).tweets ∧
    s2.page = s.page + 1 ∧
    ¬(pyTruthyInt mr = true ∧ ((s2.allTweets.length : Int) ≥ mr.getD 0)) := by
  unfold get_user_tweets_step at h
  dsimp only at h
  split at h
  · simp at h
  · split at h
    · simp at h
    · split at h
      · simp at h
      · cases h
        refine ⟨?_, rfl, rfl, ?_⟩ <;> simp_all

theorem get_user_tweets_run_terminates {τ μ : Type} (m : Int)
    (pages : Nat → TweetsPage τ μ) (hm : 0 < m) :
    ∀ (fuel : Nat) (s : TweetsState τ μ),
      (s.allTweets.length : Int) < m → m ≤ s.allTweets.length + fuel →
      ∃ t md, get_user_tweets_run (some m) pages fuel s = .done t md := by
  intro fuel
  induction fuel with
  | zero =>
    intro s h1 h2
    exfalso
    push_cast at h2
    omega
  | succ f ih =>
    intro s h1 h2
    cases hstep : get_user_tweets_step (some m) pages s with
    | done t md => exact ⟨t, md, by simp [get_user_tweets_run, hstep]⟩
    | running s2 =>
      obtain ⟨hne, hall, _, hcap⟩ := get_user_tweets_step_running (some m) pages s s2 hstep
      have hgrow : s.allTweets.length < s2.allTweets.length := by
        rw [hall]
        simp only [List.length_append]
        have : 0 < (pages s.page).tweets.length := List.length_pos.mpr hne
        omega
      have hlt : (s2.allTweets.length : Int) < m := by
        have hT : pyTruthyInt (some m) = true := by
          simp [pyTruthyInt]
          omega
        rcases not_and_or.mp hcap with hF | hge
        · exact absurd hT hF
        · simpa using lt_of_not_ge hge
      have hfuel : m ≤ s2.allTweets.length + f := by
        push_cast at h2 ⊢
        omega
      obtain ⟨t, md, hdone⟩ := ih s2 hlt hfuel
      exact ⟨t, md, by simp [get_user_tweets_run, hstep, hdone]⟩

theorem query_arxiv_loop_terminates {ε : Type} (pages : Nat → ArxivPage ε)
    (target ps : Int) :
    ∀ (fuel : Nat) (collected : List ε) (total cs : Int) (idx : Nat),
      (target - collected.length).toNat < fuel →
      (query_arxiv_loop pages target ps fuel collected total cs idx).result.isSome := by
  intro fuel
  induction fuel with
  | zero => intro c t cs i h; omega
  | succ f ih =>
    intro collected total cs idx h
    unfold query_arxiv_loop
    dsimp only
    by_cases hguard : (collected.length : Int) < target
    · rw [if_pos hguard]
      by_cases hempty : (pages idx).entries.isEmpty = true
      · rw [if_pos hempty]
        simp
      · rw [if_neg hempty]
        by_cases hshort : ((pages idx).entries.length : Int) <
            min (min ps (target - (collected.length : Int))) MAX_PAGE_SIZE
        · rw [if_pos hshort]
          simp
        · rw [if_neg hshort]
          by_cases htot : (pages idx).totalResults ≠ 0 ∧
              cs + ((pages idx).entries.length : Int) ≥ (pages idx).totalResults
          · rw [if_pos htot]
            simp
          · rw [if_neg htot]
            dsimp only
            apply ih
            have hne : (pages idx).entries ≠ [] := by simpa using hempty
            have hpos : 0 < (pages idx).entries.length := List.length_pos.mpr hne
            have hlen : (collected ++ (pages idx).entries).length =
                collected.length + (pages idx).entries.length := List.length_append _ _
            rw [hlen]
            omega
    · rw [if_neg hguard]
      simp

/-- Counterexample to C3 as stated: with `max_results = 0` (a legal
`--max-results` value — `get_user_posts.main` never validates it), the
accumulated count (1) has reached `max_results` (0) after the first page,
yet the loop does not exit — Python's `if max_results and ...` treats `0` as
falsy — and it is still running after three further pages even though every
page kept the count at or above `max_results`. -/
theorem get_user_tweets_zero_cap_no_exit :
    get_user_tweets_step (some 0) c3Pages ⟨[], [], 0⟩ = .running ⟨["t1"], [], 1⟩ ∧
    ((1:Int) ≥ (0:Int)) ∧
    get_user_tweets (some 0) c3Pages 3 = .running ⟨["t1", "t1", "t1"], [], 3⟩ := by
  refine ⟨rfl, by norm_num, rfl⟩

/-- C3 (amended): `get_user_tweets` exits its loop exactly when the fetched
page has no tweets, or `max_results` is truthy (set and nonzero) and the
extended count reached it, or the page carries no `next_token`; when
`max_results` is a positive value the loop terminates within `max_results`
pages for every response sequence.  `query_arxiv` exits with no further fetch
when the collected count has reached `target_count`, and exits after the
current fetch when the page is empty, when the page is shorter than the
requested batch size, or when the advanced start index reaches a nonzero
reported total; for every response sequence it terminates within
`target_count + 1` fetches. -/
theorem pagination_loops_exit_spec :
    (∀ (τ μ : Type) (mr : Option Int) (pages : Nat → TweetsPage τ μ) (s : TweetsState τ μ),
      (∃ t md, get_user_tweets_step mr pages s = .done t md) ↔
        ((pages s.page).tweets.isEmpty = true ∨
         (pyTruthyInt mr = true ∧
           (((s.allTweets ++ (pages s.page).tweets).length : Int) ≥ mr.getD 0)) ∨
         (pages s.page).nextToken = none)) ∧
    (∀ (τ μ : Type) (m : Int) (pages : Nat → TweetsPage τ μ) (fuel : Nat),
      0 < m → m.toNat < fuel →
      ∃ t md, get_user_tweets (some m) pages fuel = .done t md) ∧
    (∀ (ε : Type) (pages : Nat → ArxivPage ε) (target ps total cs : Int)
        (fuel idx : Nat) (collected : List ε),
      ¬((collected.length : Int) < target) →
      query_arxiv_loop pages target ps (fuel + 1) collected total cs idx =
        ⟨some (pySliceTo collected target, total), 0⟩) ∧
    (∀ (ε : Type) (pages : Nat → ArxivPage ε) (target ps total cs : Int)
        (fuel idx : Nat) (collected : List ε),
      ((collected.length : Int) < target) →
      (pages idx).entries.isEmpty = true →
      query_arxiv_loop pages target ps (fuel + 1) collected total cs idx =
        ⟨some (pySliceTo collected target, (pages idx).totalResults), 1⟩) ∧
    (∀ (ε : Type) (pages : Nat → ArxivPage ε) (target ps total cs : Int)
        (fuel idx : Nat) (collected : List ε),
      ((collected.length : Int) < target) →
      ¬((pages idx).entries.isEmpty = true) →
      (((pages idx).entries.length : Int) <
        min (min ps (target - (collected.length : Int))) MAX_PAGE_SIZE) →
      query_arxiv_loop pages target ps (fuel + 1) collected total cs idx =
        ⟨some (pySliceTo (collected ++ (pages idx).entries) target,
               (pages idx).totalResults), 1⟩) ∧
    (∀ (ε : Type) (pages : Nat → ArxivPage ε) (target ps total cs : Int)
        (fuel idx : Nat) (collected : List ε),
      ((collected.length : Int) < target) →
      ¬((pages idx).entries.isEmpty = true) →
      ¬(((pages idx).entries.length : Int) <
        min (min ps (target - (collected.length : Int))) MAX_PAGE_SIZE) →
      ((pages idx).totalResults ≠ 0 ∧
        cs + ((pages idx).entries.length : Int) ≥ (pages idx).totalResults) →
      query_arxiv_loop pages target ps (fuel + 1) collected total cs idx =
        ⟨some (pySliceTo (collected ++ (pages idx).entries) target,
               (pages idx).totalResults), 1⟩) ∧
    (∀ (ε : Type) (pages : Nat → ArxivPage ε) (target ps start : Int) (fuel : Nat),
      target.toNat < fuel →
      (query_arxiv pages target ps start fuel).result.isSome) := by
  refine ⟨?_, ?_, ?_, ?_, ?_, ?_, ?_⟩
  · intro τ μ mr pages s
    unfold get_user_tweets_step
    dsimp only
    split
    · simp_all
    · split
      · simp_all
      · split
        · simp_all
        · simp_all
  · intro τ μ m pages fuel hm hfuel
    apply get_user_tweets_run_terminates m pages hm fuel ⟨[], [], 0⟩
    · simpa using hm
    · simp only [List.length_nil, Nat.cast_zero, zero_add]
      omega
  · intro ε pages target ps total cs fuel idx collected hguard
    unfold query_arxiv_loop
    dsimp only
    rw [if_neg hguard]
  · intro ε pages target ps total cs fuel idx collected hguard hempty
    unfold query_arxiv_loop
    dsimp only
    rw [if_pos hguard, if_pos hempty]
  · intro ε pages target ps total cs fuel idx collected hguard hempty hshort
    unfold query_arxiv_loop
    dsimp only
    rw [if_pos hguard, if_neg hempty, if_pos hshort]
  · intro ε pages target ps total cs fuel idx collected hguard hempty hshort htot
    unfold query_arxiv_loop
    dsimp only
    rw [if_pos hguard, if_neg hempty, if_neg hshort, if_pos htot]
  · intro ε pages target ps start fuel hfuel
    apply query_arxiv_loop_terminates
    simpa using hfuel

/-- Witness for C3 (amended), exercising each exit condition and both
termination bounds at concrete inputs. -/
theorem pagination_loops_exit_spec_witness :
    (∃ t md, get_user_tweets_step (some 5) wTweetPages
      (⟨[], [], 0⟩ : TweetsState String String) = .done t md) ∧
    (∃ t md, get_user_tweets (some 1) wTweetPages 2 = .done t md) ∧
    (query_arxiv_loop wArxivOne 1 10 1 ["x"] 5 0 0 =
      ⟨some (pySliceTo ["x"] 1, 5), 0⟩) ∧
    (query_arxiv_loop wArxivEmpty 3 10 1 [] 0 0 0 =
      ⟨some (pySliceTo ([] : List String) 3, (wArxivEmpty 0).totalResults), 1⟩) ∧
    (query_arxiv_loop wArxivOne 3 2 1 [] 0 0 0 =
      ⟨some (pySliceTo ([] ++ (wArxivOne 0).entries) 3, (wArxivOne 0).totalResults), 1⟩) ∧
    (query_arxiv_loop wArxivHit 3 1 1 [] 0 0 0 =
      ⟨some (pySliceTo ([] ++ (wArxivHit 0).entries) 3, (wArxivHit 0).totalResults), 1⟩) ∧
    (query_arxiv wArxivOne 1 10 0 2).result.isSome := by
  obtain ⟨h1, h2, h3, h4, h5, h6, h7⟩ := pagination_loops_exit_spec
  refine ⟨?_, ?_, ?_, ?_, ?_, ?_, ?_⟩
  · exact (h1 String String (some 5) wTweetPages ⟨[], [], 0⟩).mpr (Or.inr (Or.inr rfl))
  · exact h2 String String 1 wTweetPages 2 (by norm_num) (by norm_num)
  · exact h3 String wArxivOne 1 10 5 0 0 0 ["x"] (by norm_num)
  · exact h4 String wArxivEmpty 3 10 0 0 0 0 [] (by norm_num) (by decide)
  · exact h5 String wArxivOne 3 2 0 0 0 0 [] (by norm_num) (by decide) (by decide)
  · exact h6 String wArxivHit 3 1 0 0 0 0 [] (by norm_num) (by decide) (by decide)
      (by exact ⟨by decide, by decide⟩)
  · exact h7 String wArxivOne 1 10 0 2 (by norm_num)

/-! ### JSON values and the SERP result pipeline (claims C4, C9, C6, C7)

`JValue` models the Python objects handled by `json.loads`/`json.dumps`.  A
JSON number is a decimal `m / 10 ^ fracLen` printed with exactly `fracLen`
fractional digits (`fracLen = 0` is the integer form), which covers the `int`
and `float` reprs the scripts serialize.  Python `dict`s are association
lists (JSON objects parsed by `json.loads` have unique keys, so first-match
lookup agrees with Python's). -/

theorem serp_collect_loop_nodup (mr : Int) :
    ∀ (items : List JValue) (normalized : List SerpRecord) (seen : List String),
      (∀ r ∈ normalized, r.url ∈ seen) →
      (normalized.map (fun r => r.url)).Nodup →
      ((serp_collect_loop mr items normalized seen).map (fun r => r.url)).Nodup := by
  intro items
  induction items with
  | nil => intro normalized seen _ hnd; simpa [serp_collect_loop] using hnd
  | cons item rest ih =>
    intro normalized seen hseen hnd
    unfold serp_collect_loop
    by_cases hfull : (normalized.length : Int) ≥ mr
    · rw [if_pos hfull]; exact hnd
    · rw [if_neg hfull]
      cases item with
      | obj fields =>
        dsimp only
        cases hrec : normalize_result fields (normalized.length + 1) with
        | none => exact ih normalized seen hseen hnd
        | some record =>
          dsimp only
          by_cases hmem : record.url ∈ seen
          · rw [if_pos hmem]; exact ih normalized seen hseen hnd
          · rw [if_neg hmem]
            apply ih
            · intro r hr
              rcases List.mem_append.mp hr with hr | hr
              · exact List.mem_cons_of_mem _ (hseen r hr)
              · simp only [List.mem_singleton] at hr
                subst hr
                exact List.mem_cons_self _ _
            · have hnotin : record.url ∉ normalized.map (fun r => r.url) := by
                intro hin
                obtain ⟨r, hr, hru⟩ := List.mem_map.mp hin
                exact hmem (hru ▸ hseen r hr)
              simp [List.nodup_append, hnd, hnotin]
      | null => exact ih normalized seen hseen hnd
      | bool b => exact ih normalized seen hseen hnd
      | num m f => exact ih normalized seen hseen hnd
      | str s => exact ih normalized seen hseen hnd
      | arr l => exact ih normalized seen hseen hnd

theorem linkedin_collect_inner_inv (mp : Int) :
    ∀ (elems : List LElemOutcome) (posts : List LPost) (seen : List String),
      (∀ p ∈ posts, linkedin_post_key p ∈ seen) →
      (posts.map linkedin_post_key).Nodup →
      (∀ p ∈ (linkedin_collect_inner mp elems posts seen).1,
        linkedin_post_key p ∈ (linkedin_collect_inner mp elems posts seen).2) ∧
      ((linkedin_collect_inner mp elems posts seen).1.map linkedin_post_key).Nodup := by
  intro elems
  induction elems with
  | nil => intro posts seen hseen hnd; exact ⟨hseen, hnd⟩
  | cons e rest ih =>
    intro posts seen hseen hnd
    unfold linkedin_collect_inner
    by_cases hfull : (posts.length : Int) ≥ mp
    · rw [if_pos hfull]; exact ⟨hseen, hnd⟩
    · rw [if_neg hfull]
      cases e with
      | raises => exact ih posts seen hseen hnd
      | noPost => exact ih posts seen hseen hnd
      | post p =>
        dsimp only
        by_cases hmem : linkedin_post_key p ∈ seen
        · rw [if_pos hmem]; exact ih posts seen hseen hnd
        · rw [if_neg hmem]
          apply ih
          · intro q hq
            rcases List.mem_append.mp hq with hq | hq
            · exact List.mem_cons_of_mem _ (hseen q hq)
            · simp only [List.mem_singleton] at hq
              subst hq
              exact List.mem_cons_self _ _
          · have hnotin : linkedin_post_key p ∉ posts.map linkedin_post_key := by
              intro hin
              obtain ⟨q, hq, hqk⟩ := List.mem_map.mp hin
              exact hmem (hqk ▸ hseen q hq)
            simp [List.nodup_append, hnd, hnotin]

theorem linkedin_scrape_loop_nodup (mp : Int) (passes : Nat → List LElemOutcome) :
    ∀ (fuel idx : Nat) (st : List LPost × List String),
      (∀ p ∈ st.1, linkedin_post_key p ∈ st.2) →
      (st.1.map linkedin_post_key).Nodup →
      (∀ p ∈ (linkedin_scrape_loop mp passes fuel idx st).1,
        linkedin_post_key p ∈ (linkedin_scrape_loop mp passes fuel idx st).2) ∧
      ((linkedin_scrape_loop mp passes fuel idx st).1.map linkedin_post_key).Nodup := by
  intro fuel
  induction fuel with
  | zero => intro idx st hseen hnd; exact ⟨hseen, hnd⟩
  | succ f ih =>
    intro idx st hseen hnd
    unfold linkedin_scrape_loop
    by_cases hrun : (st.1.length : Int) < mp
    · rw [if_pos hrun]
      obtain ⟨h1, h2⟩ := linkedin_collect_inner_inv mp (passes idx) st.1 st.2 hseen hnd
      exact ih (idx + 1) _ h1 h2
    · rw [if_neg hrun]; exact ⟨hseen, hnd⟩

/-- Counterexample to C4 as stated: `get_user_tweets` performs no
de-duplication at all — when the server repeats a tweet id across pages the
output contains the id twice (tweets are represented here by their `id`
field). -/
theorem get_user_tweets_duplicate_ids :
    get_user_tweets (some 10) c4Pages 5 = .done ["t1", "t1"] [] ∧
    ¬(["t1", "t1"].Nodup) := by
  exact ⟨rfl, by decide⟩

/-- C4 (amended): within a single run, `search_google_serp.main`'s normalized
record list contains no two records with the same `url`, and the LinkedIn
scraper collects no two posts with the same id / text-prefix fallback key;
`get_user_posts` performs no de-duplication, so its output can repeat ids. -/
theorem single_run_deduplication (mr mp : Int) (items : List JValue)
    (passes : Nat → List LElemOutcome) :
    ((serp_collect mr items).map (fun r => r.url)).Nodup ∧
    ((linkedin_posts mp passes).map linkedin_post_key).Nodup := by
  constructor
  · exact serp_collect_loop_nodup mr items [] [] (by simp) (by simp)
  · exact (linkedin_scrape_loop_nodup mp passes 10 0 ([], []) (by simp) (by simp)).2

theorem pySliceTo_length_le {α : Type} (l : List α) (n : Int) (hn : 0 ≤ n) :
    ((pySliceTo l n).length : Int) ≤ n := by
  unfold pySliceTo
  rw [if_pos hn]
  have h1 : (l.take n.toNat).length ≤ n.toNat := by simp [List.length_take]
  omega

theorem get_user_tweets_step_cases {τ μ : Type} (mr : Option Int)
    (pages : Nat → TweetsPage τ μ) (s : TweetsState τ μ) :
    ((pages s.page).tweets.isEmpty = true ∧
      get_user_tweets_step mr pages s = .done s.allTweets s.allMedia) ∨
    (¬(pages s.page).tweets.isEmpty = true ∧
      (pyTruthyInt mr = true ∧
        (((s.allTweets ++ (pages s.page).tweets).length : Int) ≥ mr.getD 0)) ∧
      get_user_tweets_step mr pages s =
        .done (pySliceTo (s.allTweets ++ (pages s.page).tweets) (mr.getD 0))
              (s.allMedia ++ (pages s.page).media)) ∨
    (¬(pages s.page).tweets.isEmpty = true ∧
      ¬(pyTruthyInt mr = true ∧
        (((s.allTweets ++ (pages s.page).tweets).length : Int) ≥ mr.getD 0)) ∧
      (pages s.page).nextToken = none ∧
      get_user_tweets_step mr pages s =
        .done (s.allTweets ++ (pages s.page).tweets) (s.allMedia ++ (pages s.page).media)) ∨
    (¬(pages s.page).tweets.isEmpty = true ∧
      ¬(pyTruthyInt mr = true ∧
        (((s.allTweets ++ (pages s.page).tweets).length : Int) ≥ mr.getD 0)) ∧
      (∃ tok, (pages s.page).nextToken = some tok) ∧
      get_user_tweets_step mr pages s =
        .running ⟨s.allTweets ++ (pages s.page).tweets,
                  s.allMedia ++ (pages s.page).media, s.page + 1⟩) := by
  by_cases hempty : (pages s.page).tweets.isEmpty = true
  · refine Or.inl ⟨hempty, ?_⟩
    unfold get_user_tweets_step
    dsimp only
    rw [if_pos hempty]
  · by_cases hcap : pyTruthyInt mr = true ∧
        (((s.allTweets ++ (pages s.page).tweets).length : Int) ≥ mr.getD 0)
    · refine Or.inr (Or.inl ⟨hempty, hcap, ?_⟩)
      unfold get_user_tweets_step
      dsimp only
      rw [if_neg hempty, if_pos hcap]
    · cases htok : (pages s.page).nextToken with
      | none =>
        refine Or.inr (Or.inr (Or.inl ⟨hempty, hcap, rfl, ?_⟩))
        unfold get_user_tweets_step
        dsimp only
        rw [if_neg hempty, if_neg hcap, htok]
      | some tok =>
        refine Or.inr (Or.inr (Or.inr ⟨hempty, hcap, ⟨tok, rfl⟩, ?_⟩))
        unfold get_user_tweets_step
        dsimp only
        rw [if_neg hempty, if_neg hcap, htok]

theorem get_user_tweets_run_length_le {τ μ : Type} (m : Int)
    (pages : Nat → TweetsPage τ μ) (hm : 0 < m) :
    ∀ (fuel : Nat) (s : TweetsState τ μ) (t : List τ) (md : List μ),
      (s.allTweets.length : Int) < m →
      get_user_tweets_run (some m) pages fuel s = .done t md →
      (t.length : Int) ≤ m := by
  intro fuel
  induction fuel with
  | zero =>
    intro s t md hs h
    simp [get_user_tweets_run] at h
  | succ f ih =>
    intro s t md hs h
    unfold get_user_tweets_run at h
    rcases get_user_tweets_step_cases (some m) pages s with
      ⟨_, hstep⟩ | ⟨_, hcap, hstep⟩ | ⟨_, hcap, _, hstep⟩ | ⟨_, hcap, _, hstep⟩
    · rw [hstep] at h
      obtain ⟨h1, _⟩ := by simpa using h
      rw [← h1]
      exact le_of_lt hs
    · rw [hstep] at h
      obtain ⟨h1, _⟩ := by simpa using h
      rw [← h1]
      simpa using pySliceTo_length_le (s.allTweets ++ (pages s.page).tweets) m hm.le
    · rw [hstep] at h
      obtain ⟨h1, _⟩ := by simpa using h
      rw [← h1]
      have hT : pyTruthyInt (some m) = true := by
        simp [pyTruthyInt]
        omega
      rcases not_and_or.mp hcap with hF | hge
      · exact absurd hT hF
      · simpa using le_of_lt (lt_of_not_ge hge)
    · rw [hstep] at h
      dsimp only at h
      have hT : pyTruthyInt (some m) = true := by
        simp [pyTruthyInt]
        omega
      have hlt : ((s.allTweets ++ (pages s.page).tweets).length : Int) < m := by
        rcases not_and_or.mp hcap with hF | hge
        · exact absurd hT hF
        · exact lt_of_not_ge hge
      exact ih _ t md hlt h

theorem query_arxiv_loop_length_le {ε : Type} (pages : Nat → ArxivPage ε)
    (target ps : Int) (ht : 0 ≤ target) :
    ∀ (fuel : Nat) (collected : List ε) (total cs : Int) (idx : Nat)
      (entries : List ε) (tot : Int),
      (query_arxiv_loop pages target ps fuel collected total cs idx).result =
        some (entries, tot) →
      (entries.length : Int) ≤ target := by
  intro fuel
  induction fuel with
  | zero =>
    intro collected total cs idx entries tot h
    simp [query_arxiv_loop] at h
  | succ f ih =>
    intro collected total cs idx entries tot h
    unfold query_arxiv_loop at h
    dsimp only at h
    by_cases hguard : (collected.length : Int) < target
    · rw [if_pos hguard] at h
      by_cases hempty : (pages idx).entries.isEmpty = true
      · rw [if_pos hempty] at h
        obtain ⟨h1, _⟩ := by simpa using h
        rw [← h1]
        exact pySliceTo_length_le _ _ ht
      · rw [if_neg hempty] at h
        by_cases hshort : ((pages idx).entries.length : Int) <
            min (min ps (target - (collected.length : Int))) MAX_PAGE_SIZE
        · rw [if_pos hshort] at h
          obtain ⟨h1, _⟩ := by simpa using h
          rw [← h1]
          exact pySliceTo_length_le _ _ ht
        · rw [if_neg hshort] at h
          by_cases htot : (pages idx).totalResults ≠ 0 ∧
              cs + ((pages idx).entries.length : Int) ≥ (pages idx).totalResults
          · rw [if_pos htot] at h
            obtain ⟨h1, _⟩ := by simpa using h
            rw [← h1]
            exact pySliceTo_length_le _ _ ht
          · rw [if_neg htot] at h
            dsimp only at h
            exact ih _ _ _ _ _ _ h
    · rw [if_neg hguard] at h
      obtain ⟨h1, _⟩ := by simpa using h
      rw [← h1]
      exact pySliceTo_length_le _ _ ht

theorem serp_collect_loop_length (mr : Int) :
    ∀ (items : List JValue) (normalized : List SerpRecord) (seen : List String),
      normalized.length ≤ mr.toNat →
      (serp_collect_loop mr items normalized seen).length ≤ mr.toNat := by
  intro items
  induction items with
  | nil => intro normalized seen h; simpa [serp_collect_loop] using h
  | cons item rest ih =>
    intro normalized seen hlen
    unfold serp_collect_loop
    by_cases hfull : (normalized.length : Int) ≥ mr
    · rw [if_pos hfull]; exact hlen
    · rw [if_neg hfull]
      have hgrow : normalized.length + 1 ≤ mr.toNat := by omega
      cases item with
      | obj fields =>
        dsimp only
        cases hrec : normalize_result fields (normalized.length + 1) with
        | none => exact ih normalized seen hlen
        | some record =>
          dsimp only
          by_cases hmem : record.url ∈ seen
          · rw [if_pos hmem]; exact ih normalized seen hlen
          · rw [if_neg hmem]
            apply ih
            simpa using hgrow
      | null => exact ih normalized seen hlen
      | bool b => exact ih normalized seen hlen
      | num m f => exact ih normalized seen hlen
      | str sv => exact ih normalized seen hlen
      | arr l => exact ih normalized seen hlen

/-- Counterexample to C9 as stated: with `max_results` set to `0`, the output
contains one tweet — more than the requested count — because the truncation
guard `if max_results and ...` treats `0` as falsy. -/
theorem get_user_tweets_zero_cap_excess :
    get_user_tweets (some 0) c9Pages 2 = .done ["t1"] [] ∧
    ¬(((["t1"] : List String).length : Int) ≤ 0) := by
  exact ⟨rfl, by norm_num⟩

/-- C9 (amended): `query_arxiv` returns at most `target_count` entries (for
the nonnegative targets `main` admits); `get_user_tweets` returns at most
`max_results` tweets when `max_results` is set to a positive value; the
normalized SERP list has length at most `max_results` (clamped below by
zero).  With `max_results` set to `0` (or `None`) the tweet output is
uncapped. -/
theorem result_counts_capped :
    (∀ (ε : Type) (pages : Nat → ArxivPage ε) (target ps start : Int) (fuel : Nat)
        (entries : List ε) (total : Int),
      0 ≤ target →
      (query_arxiv pages target ps start fuel).result = some (entries, total) →
      (entries.length : Int) ≤ target) ∧
    (∀ (τ μ : Type) (m : Int) (pages : Nat → TweetsPage τ μ) (fuel : Nat)
        (t : List τ) (md : List μ),
      0 < m →
      get_user_tweets (some m) pages fuel = .done t md →
      (t.length : Int) ≤ m) ∧
    (∀ (mr : Int) (items : List JValue),
      (serp_collect mr items).length ≤ mr.toNat) := by
  refine ⟨?_, ?_, ?_⟩
  · intro ε pages target ps start fuel entries total ht h
    exact query_arxiv_loop_length_le pages target ps ht fuel [] 0 start 0 entries total h
  · intro τ μ m pages fuel t md hm h
    exact get_user_tweets_run_length_le m pages hm fuel ⟨[], [], 0⟩ t md (by simpa using hm) h
  · intro mr items
    exact serp_collect_loop_length mr items [] [] (by simp)

/-- Witness for C9 (amended) at concrete runs of all three pipelines. -/
theorem result_counts_capped_witness :
    (((["e"] : List String).length : Int) ≤ 1 ∧
      (query_arxiv wArxivOne 1 10 0 2).result = some (["e"], 5)) ∧
    (((["a"] : List String).length : Int) ≤ 1 ∧
      get_user_tweets (some 1) wTweetPages 2 = .done ["a"] []) ∧
    (serp_collect 2 []).length ≤ (2:Int).toNat := by
  obtain ⟨h1, h2, h3⟩ := result_counts_capped
  refine ⟨⟨?_, rfl⟩, ⟨?_, rfl⟩, h3 2 []⟩
  · exact h1 String wArxivOne 1 10 0 2 ["e"] 5 (by norm_num) rfl
  · exact h2 String String 1 wTweetPages 2 ["a"] [] (by norm_num) rfl

/-! ### `select_video_variant` (claim C10)

Embeds `select_video_variant` (`get_user_posts.py` lines 206-240).  Python's
`list.sort` is a stable ascending sort; a stable sort's output is uniquely
determined by the key order and original positions, so the structural
insertion sort below computes exactly what `list.sort(key=...)` computes. -/

theorem insert_by_rate_perm (v : VideoVariant) (l : List VideoVariant) :
    List.Perm (insert_by_rate v l) (v :: l) := by
  induction l with
  | nil => rfl
  | cons w rest ih =>
    unfold insert_by_rate
    by_cases h : variant_rate w ≤ variant_rate v
    · rw [if_pos h]
      exact (ih.cons w).trans (List.Perm.swap v w rest)
    · rw [if_neg h]

theorem sort_by_rate_perm (l : List VideoVariant) :
    List.Perm (sort_by_rate l) l := by
  induction l with
  | nil => rfl
  | cons v rest ih =>
    unfold sort_by_rate
    exact (insert_by_rate_perm v (sort_by_rate rest)).trans (ih.cons v)

theorem insert_by_rate_sorted (v : VideoVariant) (l : List VideoVariant)
    (h : l.Pairwise (fun a b => variant_rate a ≤ variant_rate b)) :
    (insert_by_rate v l).Pairwise (fun a b => variant_rate a ≤ variant_rate b) := by
  induction l with
  | nil => simp [insert_by_rate]
  | cons w rest ih =>
    unfold insert_by_rate
    obtain ⟨hw, hrest⟩ := List.pairwise_cons.mp h
    by_cases hle : variant_rate w ≤ variant_rate v
    · rw [if_pos hle]
      refine List.pairwise_cons.mpr ⟨?_, ih hrest⟩
      intro u hu
      have := (insert_by_rate_perm v rest).mem_iff.mp hu
      rcases List.mem_cons.mp this with hu | hu
      · subst hu; exact hle
      · exact hw u hu
    · rw [if_neg hle]
      refine List.pairwise_cons.mpr ⟨?_, h⟩
      intro u hu
      rcases List.mem_cons.mp hu with hu | hu
      · subst hu; omega
      · have := hw u hu
        omega

theorem sort_by_rate_sorted (l : List VideoVariant) :
    (sort_by_rate l).Pairwise (fun a b => variant_rate a ≤ variant_rate b) := by
  induction l with
  | nil => simp [sort_by_rate]
  | cons v rest ih => exact insert_by_rate_sorted v (sort_by_rate rest) ih

theorem pick_under_loop_spec (mb : Int) :
    ∀ (l : List VideoVariant) (sel : Option VideoVariant),
      pick_under_loop mb l sel =
        match (l.takeWhile (fun v => variant_rate v ≤ mb)).getLast? with
        | some w => some w
        | none => sel := by
  intro l
  induction l with
  | nil => intro sel; simp [pick_under_loop]
  | cons v rest ih =>
    intro sel
    unfold pick_under_loop
    by_cases h : variant_rate v ≤ mb
    · rw [if_pos h, ih (some v)]
      have ht : (v :: rest).takeWhile (fun v => variant_rate v ≤ mb) =
          v :: rest.takeWhile (fun v => variant_rate v ≤ mb) := by
        simp [List.takeWhile_cons, h]
      rw [ht]
      cases htw : rest.takeWhile (fun v => variant_rate v ≤ mb) with
      | nil => simp
      | cons b t =>
        obtain ⟨w, hw⟩ : ∃ w, (b :: t).getLast? = some w :=
          ⟨(b :: t).getLast (List.cons_ne_nil b t),
           List.getLast?_eq_getLast_of_ne_nil (List.cons_ne_nil b t)⟩
        have hvw : (v :: b :: t).getLast? = (b :: t).getLast? := rfl
        rw [hvw, hw]
    · rw [if_neg h]
      have ht : (v :: rest).takeWhile (fun v => variant_rate v ≤ mb) = [] := by
        simp [List.takeWhile_cons, h]
      rw [ht]
      simp

theorem sorted_getLast_max :
    ∀ (l : List VideoVariant) (w : VideoVariant),
      l.Pairwise (fun a b => variant_rate a ≤ variant_rate b) →
      l.getLast? = some w → ∀ u ∈ l, variant_rate u ≤ variant_rate w := by
  intro l
  induction l with
  | nil => intro w _ h; simp at h
  | cons a rest ih =>
    intro w hp hlast u hu
    obtain ⟨ha, hrest⟩ := List.pairwise_cons.mp hp
    cases rest with
    | nil =>
      simp at hlast
      subst hlast
      simp at hu
      subst hu
      exact le_refl _
    | cons b t =>
      have hlast2 : (b :: t).getLast? = some w := hlast
      rcases List.mem_cons.mp hu with hu | hu
      · subst hu
        have hwmem : w ∈ b :: t := by
          rw [List.getLast?_eq_getLast_of_ne_nil (List.cons_ne_nil b t)] at hlast2
          rw [← Option.some.inj hlast2]
          exact List.getLast_mem (List.cons_ne_nil b t)
        exact ha w hwmem
      · exact ih w hrest hlast2 u hu

theorem sorted_mem_takeWhile (mb : Int) :
    ∀ (l : List VideoVariant),
      l.Pairwise (fun a b => variant_rate a ≤ variant_rate b) →
      ∀ u ∈ l, variant_rate u ≤ mb →
        u ∈ l.takeWhile (fun v => variant_rate v ≤ mb) := by
  intro l
  induction l with
  | nil => intro _ u hu; simp at hu
  | cons a rest ih =>
    intro hp u hu hur
    obtain ⟨ha, hrest⟩ := List.pairwise_cons.mp hp
    by_cases hA : variant_rate a ≤ mb
    · have ht : (a :: rest).takeWhile (fun v => variant_rate v ≤ mb) =
          a :: rest.takeWhile (fun v => variant_rate v ≤ mb) := by
        simp [List.takeWhile_cons, hA]
      rw [ht]
      rcases List.mem_cons.mp hu with hu | hu
      · subst hu; exact List.mem_cons_self _ _
      · exact List.mem_cons_of_mem _ (ih hrest u hu hur)
    · exfalso
      rcases List.mem_cons.mp hu with hu | hu
      · subst hu; exact hA hur
      · exact hA (le_trans (ha u hu) hur)

/-- Counterexample to C10 as stated: the variant list contains an
mp4 entry, yet `select_video_variant` returns `None`, because the selected
variant's `url` field is missing and `selected.get("url")` is `None`. -/
theorem select_video_variant_none_despite_mp4 :
    select_video_variant c10Variants 800000 = none ∧
    c10Variants.filter is_mp4 ≠ [] := by
  exact ⟨rfl, by decide⟩

/-- C10 (amended): `select_video_variant` returns `None` when no variant has
`content_type` `"video/mp4"`; otherwise it returns the (optional) `url` field
of an mp4 variant — so `None` can also occur when that field is absent —
where the chosen variant has the largest `bit_rate` not exceeding
`max_bitrate` among the mp4 variants when one fits, and the smallest
`bit_rate` when every mp4 variant exceeds the budget (missing `bit_rate`
treated as 0). -/
theorem select_video_variant_spec :
    (∀ (variants : List VideoVariant) (mb : Int),
      variants.filter is_mp4 = [] → select_video_variant variants mb = none) ∧
    (∀ (variants : List VideoVariant) (mb : Int),
      (∃ v ∈ variants.filter is_mp4, variant_rate v ≤ mb) →
      ∃ w ∈ variants.filter is_mp4, variant_rate w ≤ mb ∧
        (∀ u ∈ variants.filter is_mp4, variant_rate u ≤ mb →
          variant_rate u ≤ variant_rate w) ∧
        select_video_variant variants mb = w.url) ∧
    (∀ (variants : List VideoVariant) (mb : Int),
      variants.filter is_mp4 ≠ [] →
      (∀ v ∈ variants.filter is_mp4, mb < variant_rate v) →
      ∃ w ∈ variants.filter is_mp4,
        (∀ u ∈ variants.filter is_mp4, variant_rate w ≤ variant_rate u) ∧
        select_video_variant variants mb = w.url) := by
  refine ⟨?_, ?_, ?_⟩
  · intro variants mb hfe
    unfold select_video_variant
    by_cases hv : variants.isEmpty
    · rw [if_pos hv]
    · rw [if_neg hv]
      try dsimp only
      rw [if_pos (by simp [hfe])]
  · intro variants mb ⟨v, hvmem, hvr⟩
    have hfe : variants.filter is_mp4 ≠ [] := List.ne_nil_of_mem hvmem
    have hve : ¬variants.isEmpty = true := by
      have : v ∈ variants := List.mem_of_mem_filter hvmem
      simp [List.isEmpty_iff]
      exact List.ne_nil_of_mem this
    have hperm := sort_by_rate_perm (variants.filter is_mp4)
    have hsorted := sort_by_rate_sorted (variants.filter is_mp4)
    have hvmem2 : v ∈ sort_by_rate (variants.filter is_mp4) := hperm.mem_iff.mpr hvmem
    have hvtw : v ∈ (sort_by_rate (variants.filter is_mp4)).takeWhile
        (fun v => variant_rate v ≤ mb) :=
      sorted_mem_takeWhile mb _ hsorted v hvmem2 hvr
    have htwne : (sort_by_rate (variants.filter is_mp4)).takeWhile
        (fun v => variant_rate v ≤ mb) ≠ [] := List.ne_nil_of_mem hvtw
    obtain ⟨w, hlast⟩ : ∃ w, ((sort_by_rate (variants.filter is_mp4)).takeWhile
        (fun v => variant_rate v ≤ mb)).getLast? = some w :=
      ⟨_, List.getLast?_eq_getLast_of_ne_nil htwne⟩
    have hwtw : w ∈ (sort_by_rate (variants.filter is_mp4)).takeWhile
        (fun v => variant_rate v ≤ mb) := by
      rw [List.getLast?_eq_getLast_of_ne_nil htwne] at hlast
      exact (Option.some.inj hlast) ▸ List.getLast_mem htwne
    have hwsorted : w ∈ sort_by_rate (variants.filter is_mp4) :=
      (List.takeWhile_sublist _).subset hwtw
    have hwmem : w ∈ variants.filter is_mp4 := hperm.mem_iff.mp hwsorted
    have hwr : variant_rate w ≤ mb := by
      have := List.mem_takeWhile_imp hwtw
      simpa using this
    refine ⟨w, hwmem, hwr, ?_, ?_⟩
    · intro u humem hur
      have hutw : u ∈ (sort_by_rate (variants.filter is_mp4)).takeWhile
          (fun v => variant_rate v ≤ mb) :=
        sorted_mem_takeWhile mb _ hsorted u (hperm.mem_iff.mpr humem) hur
      have htws : ((sort_by_rate (variants.filter is_mp4)).takeWhile
          (fun v => variant_rate v ≤ mb)).Pairwise
          (fun a b => variant_rate a ≤ variant_rate b) :=
        hsorted.sublist (List.takeWhile_sublist _)
      exact sorted_getLast_max _ w htws hlast u hutw
    · unfold select_video_variant
      rw [if_neg hve]
      try dsimp only
      rw [if_neg (by simpa using hfe)]
      try dsimp only
      rw [pick_under_loop_spec, hlast]
  · intro variants mb hfe hall
    have hve : ¬variants.isEmpty = true := by
      simp only [List.isEmpty_iff]
      intro hnil
      exact hfe (by simp [hnil])
    have hperm := sort_by_rate_perm (variants.filter is_mp4)
    have hsorted := sort_by_rate_sorted (variants.filter is_mp4)
    have hsne : sort_by_rate (variants.filter is_mp4) ≠ [] := by
      intro hnil
      exact hfe (List.Perm.nil_eq (hnil ▸ hperm)).symm
    obtain ⟨h0, t, hcons⟩ := List.exists_cons_of_ne_nil hsne
    have h0mem : h0 ∈ variants.filter is_mp4 :=
      hperm.mem_iff.mp (hcons ▸ List.mem_cons_self h0 t)
    have h0min : ∀ u ∈ variants.filter is_mp4, variant_rate h0 ≤ variant_rate u := by
      intro u humem
      have husorted : u ∈ sort_by_rate (variants.filter is_mp4) := hperm.mem_iff.mpr humem
      rw [hcons] at husorted hsorted
      rcases List.mem_cons.mp husorted with hu | hu
      · subst hu; exact le_refl _
      · exact (List.pairwise_cons.mp hsorted).1 u hu
    have htw : (sort_by_rate (variants.filter is_mp4)).takeWhile
        (fun v => variant_rate v ≤ mb) = [] := by
      rw [hcons]
      have : ¬(variant_rate h0 ≤ mb) := not_le.mpr (hall h0 h0mem)
      simp [List.takeWhile_cons, this]
    refine ⟨h0, h0mem, h0min, ?_⟩
    unfold select_video_variant
    rw [if_neg hve]
    try dsimp only
    rw [if_neg (by simpa using hfe)]
    try dsimp only
    rw [pick_under_loop_spec, htw]
    simp [hcons]

/-- Witness for C10 (amended) at concrete variant lists: no mp4 gives `None`;
with budget 500 the 100 bps variant (the largest within budget) is chosen;
with budget 50 every variant exceeds the budget and the smallest (100 bps) is
chosen. -/
theorem select_video_variant_spec_witness :
    select_video_variant wVariantsNoMp4 800000 = none ∧
    (∃ w ∈ wVariantsTwo.filter is_mp4, variant_rate w ≤ 500 ∧
      (∀ u ∈ wVariantsTwo.filter is_mp4, variant_rate u ≤ 500 →
        variant_rate u ≤ variant_rate w) ∧
      select_video_variant wVariantsTwo 500 = w.url) ∧
    (∃ w ∈ wVariantsTwo.filter is_mp4,
      (∀ u ∈ wVariantsTwo.filter is_mp4, variant_rate w ≤ variant_rate u) ∧
      select_video_variant wVariantsTwo 50 = w.url) ∧
    select_video_variant wVariantsTwo 500 = some "lo" ∧
    select_video_variant wVariantsTwo 50 = some "lo" := by
  obtain ⟨h1, h2, h3⟩ := select_video_variant_spec
  refine ⟨h1 wVariantsNoMp4 800000 (by decide), ?_, ?_, rfl, rfl⟩
  · exact h2 wVariantsTwo 500
      ⟨⟨some "video/mp4", some 100, some "lo"⟩, by decide, by decide⟩
  · exact h3 wVariantsTwo 50 (by decide) (by decide)

/-! ### Per-item failure handling (claim C6)

Embeds `download_entries` (`search_arxiv_and_download.py` lines 231-270,
with `sanitize_fragment`, lines 53-57), and the fetch-and-save loop of
`search_google_serp.main` (lines 809-826, with `fetch_and_save_html`, lines
509-544, and `sanitize_name`, lines 482-486).  Filesystem state
(`out_path.exists()`) and per-item download/fetch outcomes are inputs indexed
by position; `urlparse(url).netloc` (standard library) is an input function. -/

theorem linkedin_collect_inner_full (mp : Int) (elems : List LElemOutcome)
    (posts : List LPost) (seen : List String)
    (h : (posts.length : Int) ≥ mp) :
    linkedin_collect_inner mp elems posts seen = (posts, seen) := by
  cases elems with
  | nil => rfl
  | cons e rest =>
    unfold linkedin_collect_inner
    rw [if_pos h]

theorem linkedin_collect_inner_skips (mp : Int) (x : LElemOutcome)
    (hx : x = LElemOutcome.raises ∨ x = LElemOutcome.noPost) :
    ∀ (l1 l2 : List LElemOutcome) (posts : List LPost) (seen : List String),
      linkedin_collect_inner mp (l1 ++ x :: l2) posts seen =
        linkedin_collect_inner mp (l1 ++ l2) posts seen := by
  intro l1
  induction l1 with
  | nil =>
    intro l2 posts seen
    simp only [List.nil_append]
    by_cases hfull : (posts.length : Int) ≥ mp
    · rw [linkedin_collect_inner_full mp _ posts seen hfull]
      cases l2 with
      | nil => rfl
      | cons e2 rest2 =>
        rw [linkedin_collect_inner_full mp _ posts seen hfull]
    · rcases hx with hx | hx <;> subst hx
      · conv_lhs => unfold linkedin_collect_inner
        rw [if_neg hfull]
      · conv_lhs => unfold linkedin_collect_inner
        rw [if_neg hfull]
  | cons e rest ih =>
    intro l2 posts seen
    simp only [List.cons_append]
    unfold linkedin_collect_inner
    by_cases hfull : (posts.length : Int) ≥ mp
    · rw [if_pos hfull, if_pos hfull]
    · rw [if_neg hfull, if_neg hfull]
      cases e with
      | raises => exact ih l2 posts seen
      | noPost => exact ih l2 posts seen
      | post p =>
        dsimp only
        by_cases hmem : linkedin_post_key p ∈ seen
        · rw [if_pos hmem, if_pos hmem]
          exact ih l2 posts seen
        · rw [if_neg hmem, if_neg hmem]
          exact ih l2 _ _

theorem download_entries_go_spec (pdf_dir : String) (overwrite : Bool)
    (existsAt : Nat → Bool) (dl : Nat → DownloadOutcome) :
    ∀ (entries : List AEntry) (i : Nat),
      (download_entries_go pdf_dir overwrite existsAt dl entries i).1.length =
        entries.length ∧
      ∀ (j : Nat) (hj : j < entries.length),
        (download_entries_go pdf_dir overwrite existsAt dl entries i).1.get? j =
          some (process_entry pdf_dir overwrite existsAt dl (i + j)
            (entries.get ⟨j, hj⟩)).1 := by
  intro entries
  induction entries with
  | nil => intro i; exact ⟨rfl, fun j hj => absurd hj (by simp)⟩
  | cons e rest ih =>
    intro i
    obtain ⟨ihlen, ihget⟩ := ih (i + 1)
    constructor
    · simpa [download_entries_go] using ihlen
    · intro j hj
      cases j with
      | zero =>
        simp [download_entries_go]
      | succ k =>
        have hk : k < rest.length := by simpa using hj
        have := ihget k hk
        simp only [download_entries_go, List.get?_cons_succ]
        rw [this]
        have : i + 1 + k = i + (k + 1) := by omega
        rw [this]
        rfl

theorem serp_save_loop_spec (netloc_of : String → String)
    (outcomes : Nat → FetchOutcome) :
    ∀ (records : List SerpRecord) (j0 : Nat),
      (serp_save_loop netloc_of outcomes records j0).1.length = records.length ∧
      ∀ (j : Nat) (hj : j < records.length),
        (serp_save_loop netloc_of outcomes records j0).1.get? j =
          some (serp_save_record netloc_of (outcomes (j0 + j))
            (records.get ⟨j, hj⟩)).1 := by
  intro records
  induction records with
  | nil => intro j0; exact ⟨rfl, fun j hj => absurd hj (by simp)⟩
  | cons r rest ih =>
    intro j0
    obtain ⟨ihlen, ihget⟩ := ih (j0 + 1)
    constructor
    · simpa [serp_save_loop] using ihlen
    · intro j hj
      cases j with
      | zero =>
        simp [serp_save_loop]
      | succ k =>
        have hk : k < rest.length := by simpa using hj
        have := ihget k hk
        simp only [serp_save_loop, List.get?_cons_succ]
        rw [this]
        have : j0 + 1 + k = j0 + (k + 1) := by omega
        rw [this]
        rfl

/-- C6: per-item failures are swallowed without aborting the run.  An
exception while extracting one LinkedIn post (or an extractor returning
`None`) skips exactly that element — the collection is the one obtained with
the element removed.  `download_entries` processes every entry: the output
list has one annotated entry per input, and the annotation of entry `j`
(including an `error: ...` status for a failed download) is a function of
that entry and its own outcome alone.  The SERP save loop likewise annotates
every normalized record from its own fetch outcome (`failed` on an
exception), and the full annotated list — not a truncation — is what `main`
writes into the index and summary. -/
theorem per_item_failures_isolated :
    (∀ (mp : Int) (x : LElemOutcome), (x = .raises ∨ x = .noPost) →
      ∀ (l1 l2 : List LElemOutcome) (posts : List LPost) (seen : List String),
        linkedin_collect_inner mp (l1 ++ x :: l2) posts seen =
          linkedin_collect_inner mp (l1 ++ l2) posts seen) ∧
    (∀ (pdf_dir : String) (overwrite : Bool) (existsAt : Nat → Bool)
        (dl : Nat → DownloadOutcome) (entries : List AEntry),
      (download_entries pdf_dir overwrite existsAt dl entries).1.length =
        entries.length ∧
      ∀ (j : Nat) (hj : j < entries.length),
        (download_entries pdf_dir overwrite existsAt dl entries).1.get? j =
          some (process_entry pdf_dir overwrite existsAt dl (1 + j)
            (entries.get ⟨j, hj⟩)).1) ∧
    (∀ (netloc_of : String → String) (outcomes : Nat → FetchOutcome)
        (records : List SerpRecord),
      (serp_save_loop netloc_of outcomes records 0).1.length = records.length ∧
      ∀ (j : Nat) (hj : j < records.length),
        (serp_save_loop netloc_of outcomes records 0).1.get? j =
          some (serp_save_record netloc_of (outcomes (0 + j))
            (records.get ⟨j, hj⟩)).1) := by
  refine ⟨?_, ?_, ?_⟩
  · intro mp x hx l1 l2 posts seen
    exact linkedin_collect_inner_skips mp x hx l1 l2 posts seen
  · intro pdf_dir overwrite existsAt dl entries
    exact download_entries_go_spec pdf_dir overwrite existsAt dl entries 1
  · intro netloc_of outcomes records
    exact serp_save_loop_spec netloc_of outcomes records 0

/-- Witness for C6: a raising element is skipped and the two surrounding
posts are still collected; with the first of two downloads failing, both
entries are annotated (`error: boom` then `downloaded`); a failing fetch
annotates the lone record `failed`. -/
theorem per_item_failures_isolated_witness :
    (linkedin_collect_inner 10 [.post wPostA, .raises, .post wPostB] [] [] =
      linkedin_collect_inner 10 [.post wPostA, .post wPostB] [] []) ∧
    (linkedin_collect_inner 10 [.post wPostA, .raises, .post wPostB] [] []).1 =
      [wPostA, wPostB] ∧
    (download_entries "pdfs" false (fun _ => false) wDl [wEntry, wEntry]).1.length = 2 ∧
    ((download_entries "pdfs" false (fun _ => false) wDl [wEntry, wEntry]).1.get? 0 =
      some (process_entry "pdfs" false (fun _ => false) wDl (1 + 0)
        ([wEntry, wEntry].get ⟨0, by norm_num⟩)).1) ∧
    ((download_entries "pdfs" false (fun _ => false) wDl [wEntry, wEntry]).1.map
      (fun e => e.download_status)) = ["error: boom", "downloaded"] ∧
    (serp_save_loop (fun _ => "example.com") (fun _ => .failure "down") [wRecord] 0).1.length
      = 1 ∧
    ((serp_save_loop (fun _ => "example.com") (fun _ => .failure "down") [wRecord] 0).1.map
      (fun r => r.status)) = ["failed"] := by
  obtain ⟨h1, h2, h3⟩ := per_item_failures_isolated
  refine ⟨h1 10 .raises (Or.inl rfl) [.post wPostA] [.post wPostB] [] [], by decide,
          (h2 "pdfs" false (fun _ => false) wDl [wEntry, wEntry]).1, ?_, by decide,
          (h3 (fun _ => "example.com") (fun _ => .failure "down") [wRecord]).1, by decide⟩
  exact (h2 "pdfs" false (fun _ => false) wDl [wEntry, wEntry]).2 0 (by norm_num)

/-! ### JSON writer/reader (claim C7)

The scripts write every JSON document with
`json.dumps(obj, indent=2, ensure_ascii=False)` and the claim asks that the
written text parse back (`json.loads`) to an equal document.
`serialize_value` reproduces the `indent=2` layout (newline + two spaces per
level, `", "`-free item separators, `": "` key separators, raw non-ASCII
characters, `\uXXXX` escapes only below `U+0020`); `parse_value` is a
recursive-descent JSON reader that skips whitespace between tokens as
`json.loads` does.  JSON numbers are the decimal forms `m / 10 ^ fracLen`
of `JValue.num` (integers when `fracLen = 0`), which covers the `int` and
`float` reprs Python emits. -/

theorem parse_hex_digit_digitChar : ∀ n, n < 16 → parse_hex_digit (Nat.digitChar n) = some n := by
  decide

theorem parse_string_body_roundtrip :
    ∀ (cs rest : List Char),
      parse_string_body (escape_chars cs ++ rest) = some (cs, rest) := by
  intro cs
  induction cs with
  | nil =>
    intro rest
    show parse_string_body (jsonQuote :: rest) = some ([], rest)
    rfl
  | cons c cs ih =>
    intro rest
    show parse_string_body ((escape_char c ++ escape_chars cs) ++ rest) = _
    rw [List.append_assoc]
    unfold escape_char
    by_cases h1 : c = jsonQuote
    · subst h1
      rw [if_pos rfl]
      simp +decide [parse_string_body, parse_string_escape, unescape_code, ih]
    · rw [if_neg h1]
      by_cases h2 : c = jsonBackslash
      · subst h2
        rw [if_pos rfl]
        simp +decide [parse_string_body, parse_string_escape, unescape_code, ih]
      · rw [if_neg h2]
        by_cases h3 : c = Char.ofNat 10
        · subst h3
          rw [if_pos rfl]
          simp +decide [parse_string_body, parse_string_escape, unescape_code, ih]
        · rw [if_neg h3]
          by_cases h4 : c = Char.ofNat 13
          · subst h4
            rw [if_pos rfl]
            simp +decide [parse_string_body, parse_string_escape, unescape_code, ih]
          · rw [if_neg h4]
            by_cases h5 : c = Char.ofNat 9
            · subst h5
              rw [if_pos rfl]
              simp +decide [parse_string_body, parse_string_escape, unescape_code, ih]
            · rw [if_neg h5]
              by_cases h6 : c = Char.ofNat 8
              · subst h6
                rw [if_pos rfl]
                simp +decide [parse_string_body, parse_string_escape, unescape_code, ih]
              · rw [if_neg h6]
                by_cases h7 : c = Char.ofNat 12
                · subst h7
                  rw [if_pos rfl]
                  simp +decide [parse_string_body, parse_string_escape, unescape_code, ih]
                · rw [if_neg h7]
                  by_cases h8 : c.toNat < 32
                  · rw [if_pos h8]
                    have h0 : parse_hex_digit '0' = some 0 := by decide
                    have hhi : parse_hex_digit (Nat.digitChar (c.toNat / 16)) =
                        some (c.toNat / 16) :=
                      parse_hex_digit_digitChar _ (by omega)
                    have hlo : parse_hex_digit (Nat.digitChar (c.toNat % 16)) =
                        some (c.toNat % 16) :=
                      parse_hex_digit_digitChar _ (by omega)
                    simp +decide [parse_string_body, parse_string_escape,
                      unescape_code, h0, hhi, hlo, ih]
                    rw [show c.toNat / 16 * 16 + c.toNat % 16 = c.toNat from by omega]
                    exact Char.ofNat_toNat c
                  · rw [if_neg h8]
                    show parse_string_body (c :: (escape_chars cs ++ rest)) = _
                    unfold parse_string_body
                    rw [if_neg h1, if_neg h2, ih rest]
                    rfl

theorem digits_val_reverse (l : List Nat) :
    digits_val l.reverse = Nat.ofDigits 10 l := by
  induction l with
  | nil => simp [digits_val, Nat.ofDigits]
  | cons d l ih =>
    simp only [List.reverse_cons, digits_val, List.foldl_append, List.foldl_cons,
      List.foldl_nil, Nat.ofDigits_cons]
    unfold digits_val at ih
    rw [ih]
    ring

theorem ofDigits_replicate_zero (k : Nat) :
    Nat.ofDigits 10 (List.replicate k 0) = 0 := by
  induction k with
  | zero => simp [Nat.ofDigits]
  | succ n ih => simp [List.replicate_succ, Nat.ofDigits_cons, ih]

theorem digits_val_num_digits (a f : Nat) : digits_val (num_digits a f) = a := by
  unfold num_digits
  rw [digits_val_reverse, Nat.ofDigits_append, ofDigits_replicate_zero,
    Nat.ofDigits_digits]
  ring

theorem num_digits_lt (a f : Nat) : ∀ d ∈ num_digits a f, d < 10 := by
  intro d hd
  unfold num_digits at hd
  rw [List.mem_reverse] at hd
  rcases List.mem_append.mp hd with hd | hd
  · exact Nat.digits_lt_base (by norm_num) hd
  · have := List.eq_of_mem_replicate hd
    omega

theorem num_digits_length (a f : Nat) :
    (num_digits a f).length = max (Nat.digits 10 a).length (f + 1) := by
  unfold num_digits
  simp [List.length_append, List.length_replicate]
  omega

theorem digitChar_isDigit : ∀ d, d < 10 → (Nat.digitChar d).isDigit = true := by
  decide

theorem digitChar_toNat : ∀ d, d < 10 → (Nat.digitChar d).toNat - 48 = d := by
  decide

theorem digitChar_ne_minus : ∀ d, d < 10 → Nat.digitChar d ≠ '-' := by
  decide

theorem digitChar_ne_dot : ∀ d, d < 10 → Nat.digitChar d ≠ '.' := by
  decide

theorem takeWhile_digits_map (ds : List Nat) (rest : List Char)
    (hds : ∀ d ∈ ds, d < 10)
    (hrest : leading_non_digit rest) :
    (ds.map Nat.digitChar ++ rest).takeWhile Char.isDigit = ds.map Nat.digitChar ∧
    (ds.map Nat.digitChar ++ rest).dropWhile Char.isDigit = rest := by
  induction ds with
  | nil =>
    simp only [List.map_nil, List.nil_append]
    cases rest with
    | nil => simp
    | cons c rest2 =>
      have hc : c.isDigit = false := hrest
      simp only [List.takeWhile_cons, List.dropWhile_cons, hc]
      simp
  | cons d ds ih =>
    have hd : d < 10 := hds d (List.mem_cons_self _ _)
    obtain ⟨ih1, ih2⟩ := ih (fun x hx => hds x (List.mem_cons_of_mem _ hx))
    simp only [List.map_cons, List.cons_append, List.takeWhile_cons, List.dropWhile_cons,
      digitChar_isDigit d hd, if_true]
    exact ⟨by rw [ih1], by rw [ih2]⟩

theorem parse_digits_map (ds : List Nat) (rest : List Char)
    (hds : ∀ d ∈ ds, d < 10) (hne : ds ≠ [])
    (hrest : leading_non_digit rest) :
    parse_digits (ds.map Nat.digitChar ++ rest) = some (ds, rest) := by
  obtain ⟨h1, h2⟩ := takeWhile_digits_map ds rest hds hrest
  unfold parse_digits
  rw [h1, h2]
  have hne2 : (ds.map Nat.digitChar).isEmpty = false := by
    cases ds with
    | nil => exact absurd rfl hne
    | cons d t => rfl
  rw [if_neg (by simp [hne2])]
  have hmap : (ds.map Nat.digitChar).map (fun c => c.toNat - 48) = ds := by
    rw [List.map_map]
    have hcongr : ∀ d ∈ ds, ((fun c => c.toNat - 48) ∘ Nat.digitChar) d = d :=
      fun d hd => digitChar_toNat d (hds d hd)
    rw [List.map_congr_left hcongr]
    simp
  rw [hmap]

theorem num_boundary_digit (rest : List Char) (h : num_boundary rest) :
    leading_non_digit rest := by
  cases rest with
  | nil => trivial
  | cons c r => exact h.1

theorem parse_number_digits_int (neg : Bool) (intds : List Nat) (rest : List Char)
    (hds : ∀ d ∈ intds, d < 10) (hne : intds ≠ [])
    (hrest : num_boundary rest) :
    parse_number_digits neg (intds.map Nat.digitChar ++ rest) =
      some (.num ((if neg then -1 else 1) * (digits_val intds : Int)) 0, rest) := by
  unfold parse_number_digits
  rw [parse_digits_map intds rest hds hne (num_boundary_digit rest hrest)]
  cases rest with
  | nil => rfl
  | cons c r =>
    have hdot : ¬(c = '.') := hrest.2
    simp only [if_neg hdot]

theorem parse_number_digits_frac (neg : Bool) (intds fracds : List Nat) (rest : List Char)
    (hdi : ∀ d ∈ intds, d < 10) (hdf : ∀ d ∈ fracds, d < 10)
    (hnei : intds ≠ []) (hnef : fracds ≠ [])
    (hrest : num_boundary rest) :
    parse_number_digits neg
      (intds.map Nat.digitChar ++ ('.' :: (fracds.map Nat.digitChar ++ rest))) =
      some (.num ((if neg then -1 else 1) * (digits_val (intds ++ fracds) : Int))
        fracds.length, rest) := by
  unfold parse_number_digits
  have hint := parse_digits_map intds ('.' :: (fracds.map Nat.digitChar ++ rest)) hdi hnei
    (by exact (by decide : ('.').isDigit = false))
  rw [hint]
  dsimp only
  rw [if_pos rfl]
  rw [parse_digits_map fracds rest hdf hnef (num_boundary_digit rest hrest)]

theorem parse_number_roundtrip (m : Int) (f : Nat) (rest : List Char)
    (hrest : num_boundary rest) :
    parse_number (serialize_num m f ++ rest) = some (.num m f, rest) := by
  have hlen := num_digits_length m.natAbs f
  have hlenge : f + 1 ≤ (num_digits m.natAbs f).length := by rw [hlen]; omega
  have hlt := num_digits_lt m.natAbs f
  have hval := digits_val_num_digits m.natAbs f
  have hbene : num_digits m.natAbs f ≠ [] := by
    intro h
    rw [h] at hlenge
    simp at hlenge
  by_cases hf : f = 0
  · subst hf
    have hip : (num_digits m.natAbs 0).take ((num_digits m.natAbs 0).length - 0) =
        num_digits m.natAbs 0 := by
      rw [Nat.sub_zero, List.take_length]
    have hser : serialize_num m 0 =
        (if m < 0 then ['-'] else []) ++ (num_digits m.natAbs 0).map Nat.digitChar := by
      unfold serialize_num
      dsimp only
      rw [if_pos rfl, hip]
      simp
    by_cases hm : m < 0
    · rw [hser, if_pos hm]
      have hin : ('-' :: (num_digits m.natAbs 0).map Nat.digitChar) ++ rest =
          '-' :: ((num_digits m.natAbs 0).map Nat.digitChar ++ rest) := by simp
      show parse_number (('-' :: (num_digits m.natAbs 0).map Nat.digitChar) ++ rest) = _
      rw [hin]
      unfold parse_number
      dsimp only
      rw [if_pos rfl]
      rw [parse_number_digits_int true (num_digits m.natAbs 0) rest hlt hbene hrest]
      have : ((-1 : Int)) * (digits_val (num_digits m.natAbs 0) : Int) = m := by
        rw [hval]
        omega
      simp [this]
    · rw [hser, if_neg hm]
      obtain ⟨d0, btl, hcons⟩ := List.exists_cons_of_ne_nil hbene
      have hd0 : d0 < 10 := hlt d0 (by rw [hcons]; exact List.mem_cons_self _ _)
      rw [hcons]
      show parse_number (Nat.digitChar d0 :: (btl.map Nat.digitChar ++ rest)) = _
      unfold parse_number
      dsimp only
      rw [if_neg (digitChar_ne_minus d0 hd0)]
      have hmap : Nat.digitChar d0 :: (btl.map Nat.digitChar ++ rest) =
          ((d0 :: btl).map Nat.digitChar ++ rest) := by simp
      rw [hmap, ← hcons]
      rw [parse_number_digits_int false (num_digits m.natAbs 0) rest hlt hbene hrest]
      have : ((1 : Int)) * (digits_val (num_digits m.natAbs 0) : Int) = m := by
        rw [hval]
        omega
      simp [this]
  · have hsplit := List.take_append_drop ((num_digits m.natAbs f).length - f)
      (num_digits m.natAbs f)
    set I := (num_digits m.natAbs f).take ((num_digits m.natAbs f).length - f) with hI
    set F := (num_digits m.natAbs f).drop ((num_digits m.natAbs f).length - f) with hF
    have hflen : F.length = f := by
      rw [hF, List.length_drop]
      omega
    have hilen : I.length = (num_digits m.natAbs f).length - f := by
      rw [hI, List.length_take]
      omega
    have hine : I ≠ [] := by
      intro h
      rw [h] at hilen
      simp at hilen
      omega
    have hfne : F ≠ [] := by
      intro h
      rw [h] at hflen
      simp at hflen
      omega
    have hid : ∀ d ∈ I, d < 10 := fun d hd => hlt d (List.take_subset _ _ (hI ▸ hd))
    have hfd : ∀ d ∈ F, d < 10 := fun d hd => hlt d (List.drop_subset _ _ (hF ▸ hd))
    have hser : serialize_num m f =
        (if m < 0 then ['-'] else []) ++ I.map Nat.digitChar ++
          ('.' :: F.map Nat.digitChar) := by
      unfold serialize_num
      dsimp only
      rw [if_neg hf]
    by_cases hm : m < 0
    · have hneg : (-1 : Int) * (digits_val (I ++ F) : Int) = m := by
        rw [hsplit, hval]
        omega
      rw [hser, if_pos hm]
      have hin : (((['-'] ++ I.map Nat.digitChar ++ ('.' :: F.map Nat.digitChar)) ++ rest)
          : List Char) =
          '-' :: (I.map Nat.digitChar ++ ('.' :: (F.map Nat.digitChar ++ rest))) := by
        simp
      rw [hin]
      unfold parse_number
      dsimp only
      rw [if_pos rfl]
      rw [parse_number_digits_frac true I F rest hid hfd hine hfne hrest]
      simp [hneg, hflen]
    · have hpos : (1 : Int) * (digits_val (I ++ F) : Int) = m := by
        rw [hsplit, hval]
        omega
      rw [hser, if_neg hm]
      obtain ⟨d0, itl, hcons⟩ := List.exists_cons_of_ne_nil hine
      have hd0 : d0 < 10 := hid d0 (by rw [hcons]; exact List.mem_cons_self _ _)
      have hin : ((([] ++ I.map Nat.digitChar ++ ('.' :: F.map Nat.digitChar)) ++ rest)
          : List Char) =
          Nat.digitChar d0 :: (itl.map Nat.digitChar ++ ('.' :: (F.map Nat.digitChar ++ rest))) := by
        rw [hcons]
        simp
      rw [hin]
      unfold parse_number
      dsimp only
      rw [if_neg (digitChar_ne_minus d0 hd0)]
      have hmap : Nat.digitChar d0 :: (itl.map Nat.digitChar ++ ('.' :: (F.map Nat.digitChar ++ rest))) =
          ((d0 :: itl).map Nat.digitChar ++ ('.' :: (F.map Nat.digitChar ++ rest))) := by
        simp
      rw [hmap, ← hcons]
      rw [parse_number_digits_frac false I F rest hid hfd hine hfne hrest]
      simp [hpos, hflen]

theorem jsize_pos (v : JValue) : 1 ≤ jsize v := by
  cases v <;> simp [jsize]

theorem string_mk_data (s : String) : String.mk s.data = s := rfl

theorem newline_indent_ws (lvl : Nat) : ∀ c ∈ newline_indent lvl, is_json_ws c = true := by
  intro c hc
  rcases List.mem_cons.mp hc with rfl | hc
  · decide
  · rw [List.eq_of_mem_replicate hc]
    decide

theorem newline_indent_length (lvl : Nat) : (newline_indent lvl).length = 2 * lvl + 1 := by
  simp [newline_indent]

theorem skip_ws_append (ws tl : List Char) (c : Char)
    (hws : ∀ x ∈ ws, is_json_ws x = true) (hc : is_json_ws c = false) :
    skip_ws (ws ++ (c :: tl)) = c :: tl := by
  induction ws with
  | nil =>
    show skip_ws (c :: tl) = c :: tl
    unfold skip_ws
    rw [List.dropWhile_cons_of_neg (by simp [hc])]
  | cons w ws ih =>
    show skip_ws (w :: (ws ++ (c :: tl))) = c :: tl
    unfold skip_ws at ih ⊢
    rw [List.dropWhile_cons_of_pos (by simp [hws w (List.mem_cons_self w ws)])]
    exact ih (fun x hx => hws x (List.mem_cons_of_mem w hx))

theorem num_head_checks (c : Char)
    (h : c = '-' ∨ ∃ d, d < 10 ∧ c = Nat.digitChar d) :
    is_json_ws c = false ∧ c ≠ 'n' ∧ c ≠ 't' ∧ c ≠ 'f' ∧ c ≠ jsonQuote ∧
      c ≠ '[' ∧ c ≠ lbrace ∧ c ≠ ']' ∧ c ≠ rbrace := by
  rcases h with rfl | ⟨d, hd, rfl⟩
  · refine ⟨by decide, by decide, by decide, by decide, by decide, by decide, by decide,
      by decide, by decide⟩
  · revert hd
    revert d
    decide

theorem serialize_num_head (m : Int) (f : Nat) :
    ∃ c tl, serialize_num m f = c :: tl ∧
      (c = '-' ∨ ∃ d, d < 10 ∧ c = Nat.digitChar d) := by
  have hlen := num_digits_length m.natAbs f
  have hlenge : f + 1 ≤ (num_digits m.natAbs f).length := by rw [hlen]; omega
  have hlt := num_digits_lt m.natAbs f
  unfold serialize_num
  dsimp only
  by_cases hm : m < 0
  · rw [if_pos hm]
    exact ⟨'-', _, rfl, Or.inl rfl⟩
  · rw [if_neg hm]
    have hine : (num_digits m.natAbs f).take ((num_digits m.natAbs f).length - f) ≠ [] := by
      intro h
      have := congrArg List.length h
      rw [List.length_take] at this
      simp at this
      omega
    obtain ⟨d0, itl, hcons⟩ := List.exists_cons_of_ne_nil hine
    have hd0 : d0 < 10 := hlt d0 (List.take_subset _ _ (by rw [hcons]; exact List.mem_cons_self _ _))
    rw [hcons]
    exact ⟨Nat.digitChar d0, _, rfl, Or.inr ⟨d0, hd0, rfl⟩⟩

theorem serialize_value_head (lvl : Nat) (v : JValue) :
    ∃ c tl, serialize_value lvl v = c :: tl ∧ is_json_ws c = false ∧ c ≠ ']' := by
  cases v with
  | null =>
    exact ⟨'n', ['u', 'l', 'l'], by simp [serialize_value], by decide, by decide⟩
  | bool b =>
    cases b with
    | false =>
      exact ⟨'f', ['a', 'l', 's', 'e'], by simp [serialize_value], by decide, by decide⟩
    | true =>
      exact ⟨'t', ['r', 'u', 'e'], by simp [serialize_value], by decide, by decide⟩
  | num m f =>
    obtain ⟨c, tl, hct, hhead⟩ := serialize_num_head m f
    obtain ⟨h1, _, _, _, _, _, _, h8, _⟩ := num_head_checks c hhead
    exact ⟨c, tl, by simp [serialize_value, hct], h1, h8⟩
  | str s =>
    exact ⟨jsonQuote, escape_chars s.data, by simp [serialize_value, serialize_string],
      by decide, by decide⟩
  | arr items =>
    cases items with
    | nil => exact ⟨'[', [']'], by simp [serialize_value], by decide, by decide⟩
    | cons v vs =>
      exact ⟨'[', newline_indent (lvl + 1) ++ (serialize_value (lvl + 1) v ++
        (serialize_items_tail (lvl + 1) vs ++ (newline_indent lvl ++ [']']))),
        by simp [serialize_value], by decide, by decide⟩
  | obj fields =>
    cases fields with
    | nil => exact ⟨lbrace, [rbrace], by simp [serialize_value], by decide, by decide⟩
    | cons f fs =>
      exact ⟨lbrace, newline_indent (lvl + 1) ++ (serialize_member_chars (lvl + 1) f ++
        (serialize_members_tail (lvl + 1) fs ++ (newline_indent lvl ++ [rbrace]))),
        by simp [serialize_value], by decide, by decide⟩

theorem items_tail_boundary (la lb : Nat) (vs : List JValue) (X : List Char) :
    num_boundary (serialize_items_tail la vs ++ (newline_indent lb ++ X)) := by
  cases vs with
  | nil =>
    rw [show serialize_items_tail la ([] : List JValue) = [] from by
      simp [serialize_items_tail]]
    exact ⟨by decide, by decide⟩
  | cons v vs =>
    have htl : serialize_items_tail la (v :: vs) =
        ',' :: (newline_indent la ++ (serialize_value la v ++ serialize_items_tail la vs)) := by
      simp [serialize_items_tail]
    rw [htl]
    exact ⟨by decide, by decide⟩

theorem members_tail_boundary (la lb : Nat) (fs : List (String × JValue)) (X : List Char) :
    num_boundary (serialize_members_tail la fs ++ (newline_indent lb ++ X)) := by
  cases fs with
  | nil =>
    rw [show serialize_members_tail la ([] : List (String × JValue)) = [] from by
      simp [serialize_members_tail]]
    exact ⟨by decide, by decide⟩
  | cons f fs =>
    have htl : serialize_members_tail la (f :: fs) =
        ',' :: (newline_indent la ++ (serialize_member_chars la f ++
          serialize_members_tail la fs)) := by
      simp [serialize_members_tail]
    rw [htl]
    exact ⟨by decide, by decide⟩

theorem parse_value_null (fuel lvl : Nat) (ws rest : List Char)
    (hws : ∀ x ∈ ws, is_json_ws x = true) :
    parse_value (fuel + 1) (ws ++ (serialize_value lvl .null ++ rest)) = some (.null, rest) := by
  have hser : serialize_value lvl JValue.null = ['n', 'u', 'l', 'l'] := by simp [serialize_value]
  have hskip : skip_ws (ws ++ (serialize_value lvl JValue.null ++ rest)) =
      'n' :: ('u' :: ('l' :: ('l' :: rest))) := by
    rw [hser]
    exact skip_ws_append ws _ 'n' hws (by decide)
  unfold parse_value
  rw [hskip]
  dsimp only
  rw [if_pos rfl, if_pos (by rfl)]
  rfl

theorem parse_value_bool (fuel lvl : Nat) (b : Bool) (ws rest : List Char)
    (hws : ∀ x ∈ ws, is_json_ws x = true) :
    parse_value (fuel + 1) (ws ++ (serialize_value lvl (.bool b) ++ rest)) =
      some (.bool b, rest) := by
  cases b with
  | false =>
    have hser : serialize_value lvl (JValue.bool false) = ['f', 'a', 'l', 's', 'e'] := by
      simp [serialize_value]
    have hskip : skip_ws (ws ++ (serialize_value lvl (JValue.bool false) ++ rest)) =
        'f' :: ('a' :: ('l' :: ('s' :: ('e' :: rest)))) := by
      rw [hser]
      exact skip_ws_append ws _ 'f' hws (by decide)
    unfold parse_value
    rw [hskip]
    dsimp only
    rw [if_neg (by decide), if_neg (by decide), if_pos rfl, if_pos (by rfl)]
    rfl
  | true =>
    have hser : serialize_value lvl (JValue.bool true) = ['t', 'r', 'u', 'e'] := by
      simp [serialize_value]
    have hskip : skip_ws (ws ++ (serialize_value lvl (JValue.bool true) ++ rest)) =
        't' :: ('r' :: ('u' :: ('e' :: rest))) := by
      rw [hser]
      exact skip_ws_append ws _ 't' hws (by decide)
    unfold parse_value
    rw [hskip]
    dsimp only
    rw [if_neg (by decide), if_pos rfl, if_pos (by rfl)]
    rfl

theorem parse_value_str (fuel lvl : Nat) (s : String) (ws rest : List Char)
    (hws : ∀ x ∈ ws, is_json_ws x = true) :
    parse_value (fuel + 1) (ws ++ (serialize_value lvl (.str s) ++ rest)) =
      some (.str s, rest) := by
  have hser : serialize_value lvl (JValue.str s) = jsonQuote :: escape_chars s.data := by
    simp [serialize_value, serialize_string]
  have hskip : skip_ws (ws ++ (serialize_value lvl (JValue.str s) ++ rest)) =
      jsonQuote :: (escape_chars s.data ++ rest) := by
    rw [hser]
    exact skip_ws_append ws _ jsonQuote hws (by decide)
  unfold parse_value
  rw [hskip]
  dsimp only
  rw [if_neg (by decide), if_neg (by decide), if_neg (by decide), if_pos rfl]
  rw [parse_string_body_roundtrip s.data rest]
  rfl

theorem parse_value_num (fuel lvl : Nat) (m : Int) (f : Nat) (ws rest : List Char)
    (hws : ∀ x ∈ ws, is_json_ws x = true) (hrest : num_boundary rest) :
    parse_value (fuel + 1) (ws ++ (serialize_value lvl (.num m f) ++ rest)) =
      some (.num m f, rest) := by
  obtain ⟨c, tl, hct, hhead⟩ := serialize_num_head m f
  obtain ⟨h1, h2, h3, h4, h5, h6, h7, _, _⟩ := num_head_checks c hhead
  have hser : serialize_value lvl (JValue.num m f) = serialize_num m f := by
    simp [serialize_value]
  have hskip : skip_ws (ws ++ (serialize_value lvl (JValue.num m f) ++ rest)) =
      c :: (tl ++ rest) := by
    rw [hser, hct]
    exact skip_ws_append ws _ c hws h1
  unfold parse_value
  rw [hskip]
  dsimp only
  rw [if_neg h2, if_neg h3, if_neg h4, if_neg h5, if_neg h6, if_neg h7]
  have hin : c :: (tl ++ rest) = serialize_num m f ++ rest := by
    rw [hct, List.cons_append]
  rw [hin, parse_number_roundtrip m f rest hrest]

theorem skip_ws_cons (c : Char) (tl : List Char) (hc : is_json_ws c = false) :
    skip_ws (c :: tl) = c :: tl := by
  unfold skip_ws
  rw [List.dropWhile_cons_of_neg (by simp [hc])]

theorem parse_serialize_aux (n : Nat) :
    (∀ v lvl ws rest, (∀ x ∈ ws, is_json_ws x = true) → num_boundary rest → jsize v ≤ n →
      parse_value n (ws ++ (serialize_value lvl v ++ rest)) = some (v, rest)) ∧
    (∀ vs lvl rest, jsizeL vs < n →
      parse_elems_tail n
        (serialize_items_tail (lvl + 1) vs ++ (newline_indent lvl ++ (']' :: rest))) =
        some (vs, rest)) ∧
    (∀ k v lvl ws rest, (∀ x ∈ ws, is_json_ws x = true) → num_boundary rest → jsize v < n →
      parse_member n (ws ++ (serialize_member_chars lvl (k, v) ++ rest)) =
        some ((k, v), rest)) ∧
    (∀ fs lvl rest, jsizeM fs < n →
      parse_members_tail n
        (serialize_members_tail (lvl + 1) fs ++ (newline_indent lvl ++ (rbrace :: rest))) =
        some (fs, rest)) := by
  induction n using Nat.strong_induction_on with
  | _ n ih =>
    cases n with
    | zero =>
      refine ⟨?_, ?_, ?_, ?_⟩
      · intro v lvl ws rest hws hrest hsz
        exact absurd hsz (by have := jsize_pos v; omega)
      · intro vs lvl rest h
        omega
      · intro k v lvl ws rest hws hrest h
        omega
      · intro fs lvl rest h
        omega
    | succ fuel =>
      obtain ⟨ih1, ih2, ih3, ih4⟩ := ih fuel (by omega)
      refine ⟨?_, ?_, ?_, ?_⟩
      · intro v lvl ws rest hws hrest hsz
        cases v with
        | null => exact parse_value_null fuel lvl ws rest hws
        | bool b => exact parse_value_bool fuel lvl b ws rest hws
        | num m f => exact parse_value_num fuel lvl m f ws rest hws hrest
        | str s => exact parse_value_str fuel lvl s ws rest hws
        | arr items =>
          cases items with
          | nil =>
            have hser : serialize_value lvl (JValue.arr []) = ['[', ']'] := by
              simp [serialize_value]
            have hskip : skip_ws (ws ++ (serialize_value lvl (JValue.arr []) ++ rest)) =
                '[' :: (']' :: rest) := by
              rw [hser]
              exact skip_ws_append ws _ '[' hws (by decide)
            unfold parse_value
            rw [hskip]
            dsimp only
            rw [if_neg (by decide), if_neg (by decide), if_neg (by decide),
              if_neg (by decide), if_pos rfl]
            rw [skip_ws_cons ']' rest (by decide)]
            dsimp only
            rw [if_pos rfl]
          | cons v vs =>
            have hbound : jsize v ≤ fuel ∧ jsizeL vs < fuel := by
              have hp := jsize_pos v
              simp [jsize, jsizeL] at hsz
              omega
            have hbody : serialize_value lvl (JValue.arr (v :: vs)) ++ rest =
                '[' :: (newline_indent (lvl + 1) ++ (serialize_value (lvl + 1) v ++
                  (serialize_items_tail (lvl + 1) vs ++
                    (newline_indent lvl ++ (']' :: rest))))) := by
              rw [show serialize_value lvl (JValue.arr (v :: vs)) =
                '[' :: (newline_indent (lvl + 1) ++ (serialize_value (lvl + 1) v ++
                  (serialize_items_tail (lvl + 1) vs ++ (newline_indent lvl ++ [']'])))) from by
                simp [serialize_value]]
              simp
            have hskip : skip_ws (ws ++ (serialize_value lvl (JValue.arr (v :: vs)) ++ rest)) =
                '[' :: (newline_indent (lvl + 1) ++ (serialize_value (lvl + 1) v ++
                  (serialize_items_tail (lvl + 1) vs ++
                    (newline_indent lvl ++ (']' :: rest))))) := by
              rw [hbody]
              exact skip_ws_append ws _ '[' hws (by decide)
            unfold parse_value
            rw [hskip]
            dsimp only
            rw [if_neg (by decide), if_neg (by decide), if_neg (by decide),
              if_neg (by decide), if_pos rfl]
            obtain ⟨c2, tl2, hct2, hws2, hbr2⟩ := serialize_value_head (lvl + 1) v
            have hsk2 : skip_ws (newline_indent (lvl + 1) ++ (serialize_value (lvl + 1) v ++
                (serialize_items_tail (lvl + 1) vs ++
                  (newline_indent lvl ++ (']' :: rest))))) =
                c2 :: (tl2 ++ (serialize_items_tail (lvl + 1) vs ++
                  (newline_indent lvl ++ (']' :: rest)))) := by
              rw [hct2, List.cons_append]
              exact skip_ws_append _ _ c2 (newline_indent_ws (lvl + 1)) hws2
            rw [hsk2]
            dsimp only
            rw [if_neg hbr2]
            have hfold : c2 :: (tl2 ++ (serialize_items_tail (lvl + 1) vs ++
                (newline_indent lvl ++ (']' :: rest)))) =
                [] ++ (serialize_value (lvl + 1) v ++ (serialize_items_tail (lvl + 1) vs ++
                  (newline_indent lvl ++ (']' :: rest)))) := by
              rw [List.nil_append, hct2, List.cons_append]
            rw [hfold]
            rw [ih1 v (lvl + 1) [] _ (by simp)
              (items_tail_boundary (lvl + 1) lvl vs (']' :: rest)) hbound.1]
            dsimp only
            rw [ih2 vs lvl rest hbound.2]
        | obj fields =>
          cases fields with
          | nil =>
            have hser : serialize_value lvl (JValue.obj []) = [lbrace, rbrace] := by
              simp [serialize_value]
            have hskip : skip_ws (ws ++ (serialize_value lvl (JValue.obj []) ++ rest)) =
                lbrace :: (rbrace :: rest) := by
              rw [hser]
              exact skip_ws_append ws _ lbrace hws (by decide)
            unfold parse_value
            rw [hskip]
            dsimp only
            rw [if_neg (by decide), if_neg (by decide), if_neg (by decide),
              if_neg (by decide), if_neg (by decide), if_pos rfl]
            rw [skip_ws_cons rbrace rest (by decide)]
            dsimp only
            rw [if_pos rfl]
          | cons f fs =>
            obtain ⟨k, v2⟩ := f
            have hbound : jsize v2 < fuel ∧ jsizeM fs < fuel := by
              have hp := jsize_pos v2
              simp [jsize, jsizeM] at hsz
              omega
            have hbody : serialize_value lvl (JValue.obj ((k, v2) :: fs)) ++ rest =
                lbrace :: (newline_indent (lvl + 1) ++
                  (serialize_member_chars (lvl + 1) (k, v2) ++
                    (serialize_members_tail (lvl + 1) fs ++
                      (newline_indent lvl ++ (rbrace :: rest))))) := by
              rw [show serialize_value lvl (JValue.obj ((k, v2) :: fs)) =
                lbrace :: (newline_indent (lvl + 1) ++
                  (serialize_member_chars (lvl + 1) (k, v2) ++
                    (serialize_members_tail (lvl + 1) fs ++
                      (newline_indent lvl ++ [rbrace])))) from by
                simp [serialize_value]]
              simp
            have hskip : skip_ws (ws ++ (serialize_value lvl (JValue.obj ((k, v2) :: fs)) ++
                rest)) =
                lbrace :: (newline_indent (lvl + 1) ++
                  (serialize_member_chars (lvl + 1) (k, v2) ++
                    (serialize_members_tail (lvl + 1) fs ++
                      (newline_indent lvl ++ (rbrace :: rest))))) := by
              rw [hbody]
              exact skip_ws_append ws _ lbrace hws (by decide)
            unfold parse_value
            rw [hskip]
            dsimp only
            rw [if_neg (by decide), if_neg (by decide), if_neg (by decide),
              if_neg (by decide), if_neg (by decide), if_pos rfl]
            have hmhead : serialize_member_chars (lvl + 1) (k, v2) =
                jsonQuote :: (escape_chars k.data ++
                  (':' :: (' ' :: serialize_value (lvl + 1) v2))) := by
              simp [serialize_member_chars, serialize_string]
            have hsk2 : skip_ws (newline_indent (lvl + 1) ++
                (serialize_member_chars (lvl + 1) (k, v2) ++
                  (serialize_members_tail (lvl + 1) fs ++
                    (newline_indent lvl ++ (rbrace :: rest))))) =
                jsonQuote :: ((escape_chars k.data ++
                  (':' :: (' ' :: serialize_value (lvl + 1) v2))) ++
                  (serialize_members_tail (lvl + 1) fs ++
                    (newline_indent lvl ++ (rbrace :: rest)))) := by
              rw [hmhead, List.cons_append]
              exact skip_ws_append _ _ jsonQuote (newline_indent_ws (lvl + 1)) (by decide)
            rw [hsk2]
            dsimp only
            rw [if_neg (by decide)]
            have hfold : jsonQuote :: ((escape_chars k.data ++
                (':' :: (' ' :: serialize_value (lvl + 1) v2))) ++
                (serialize_members_tail (lvl + 1) fs ++
                  (newline_indent lvl ++ (rbrace :: rest)))) =
                [] ++ (serialize_member_chars (lvl + 1) (k, v2) ++
                  (serialize_members_tail (lvl + 1) fs ++
                    (newline_indent lvl ++ (rbrace :: rest)))) := by
              rw [List.nil_append, hmhead, List.cons_append]
            rw [hfold]
            rw [ih3 k v2 (lvl + 1) [] _ (by simp)
              (members_tail_boundary (lvl + 1) lvl fs (rbrace :: rest)) hbound.1]
            dsimp only
            rw [ih4 fs lvl rest hbound.2]
      · intro vs lvl rest hsz
        cases vs with
        | nil =>
          rw [show serialize_items_tail (lvl + 1) ([] : List JValue) = [] from by
            simp [serialize_items_tail]]
          rw [List.nil_append]
          unfold parse_elems_tail
          rw [skip_ws_append _ _ ']' (newline_indent_ws lvl) (by decide)]
          dsimp only
          rw [if_pos rfl]
        | cons v vs =>
          have hbound : jsize v ≤ fuel ∧ jsizeL vs < fuel := by
            have hp := jsize_pos v
            simp [jsizeL] at hsz
            omega
          have hc : serialize_items_tail (lvl + 1) (v :: vs) ++
              (newline_indent lvl ++ (']' :: rest)) =
              ',' :: (newline_indent (lvl + 1) ++ (serialize_value (lvl + 1) v ++
                (serialize_items_tail (lvl + 1) vs ++
                  (newline_indent lvl ++ (']' :: rest))))) := by
            rw [show serialize_items_tail (lvl + 1) (v :: vs) =
              ',' :: (newline_indent (lvl + 1) ++ (serialize_value (lvl + 1) v ++
                serialize_items_tail (lvl + 1) vs)) from by
              simp [serialize_items_tail]]
            simp
          rw [hc]
          unfold parse_elems_tail
          rw [skip_ws_cons ',' _ (by decide)]
          dsimp only
          rw [if_neg (by decide), if_pos rfl]
          rw [ih1 v (lvl + 1) (newline_indent (lvl + 1)) _ (newline_indent_ws (lvl + 1))
            (items_tail_boundary (lvl + 1) lvl vs (']' :: rest)) hbound.1]
          dsimp only
          rw [ih2 vs lvl rest hbound.2]
      · intro k v lvl ws rest hws hrest hsz
        have hm : serialize_member_chars lvl (k, v) ++ rest =
            jsonQuote :: (escape_chars k.data ++
              (':' :: (' ' :: (serialize_value lvl v ++ rest)))) := by
          simp [serialize_member_chars, serialize_string]
        rw [hm]
        unfold parse_member
        rw [skip_ws_append ws _ jsonQuote hws (by decide)]
        dsimp only
        rw [if_pos rfl]
        rw [parse_string_body_roundtrip k.data
          (':' :: (' ' :: (serialize_value lvl v ++ rest)))]
        dsimp only
        rw [skip_ws_cons ':' _ (by decide)]
        dsimp only
        rw [if_pos rfl]
        rw [show (' ' :: (serialize_value lvl v ++ rest)) =
          [' '] ++ (serialize_value lvl v ++ rest) from rfl]
        rw [ih1 v lvl [' '] rest (by decide) hrest (by omega)]
      · intro fs lvl rest hsz
        cases fs with
        | nil =>
          rw [show serialize_members_tail (lvl + 1) ([] : List (String × JValue)) = [] from by
            simp [serialize_members_tail]]
          rw [List.nil_append]
          unfold parse_members_tail
          rw [skip_ws_append _ _ rbrace (newline_indent_ws lvl) (by decide)]
          dsimp only
          rw [if_pos rfl]
        | cons f fs =>
          obtain ⟨k, v2⟩ := f
          have hbound : jsize v2 < fuel ∧ jsizeM fs < fuel := by
            have hp := jsize_pos v2
            simp [jsizeM] at hsz
            omega
          have hc : serialize_members_tail (lvl + 1) ((k, v2) :: fs) ++
              (newline_indent lvl ++ (rbrace :: rest)) =
              ',' :: (newline_indent (lvl + 1) ++
                (serialize_member_chars (lvl + 1) (k, v2) ++
                  (serialize_members_tail (lvl + 1) fs ++
                    (newline_indent lvl ++ (rbrace :: rest))))) := by
            rw [show serialize_members_tail (lvl + 1) ((k, v2) :: fs) =
              ',' :: (newline_indent (lvl + 1) ++
                (serialize_member_chars (lvl + 1) (k, v2) ++
                  serialize_members_tail (lvl + 1) fs)) from by
              simp [serialize_members_tail]]
            simp
          rw [hc]
          unfold parse_members_tail
          rw [skip_ws_cons ',' _ (by decide)]
          dsimp only
          rw [if_neg (by decide), if_pos rfl]
          rw [ih3 k v2 (lvl + 1) (newline_indent (lvl + 1)) _ (newline_indent_ws (lvl + 1))
            (members_tail_boundary (lvl + 1) lvl fs (rbrace :: rest)) hbound.1]
          dsimp only
          rw [ih4 fs lvl rest hbound.2]

theorem serialize_length_aux (n : Nat) :
    (∀ v lvl, jsize v ≤ n → jsize v ≤ (serialize_value lvl v).length) ∧
    (∀ vs lvl, jsizeL vs ≤ n → jsizeL vs ≤ (serialize_items_tail lvl vs).length) ∧
    (∀ fs lvl, jsizeM fs ≤ n → jsizeM fs ≤ (serialize_members_tail lvl fs).length) := by
  induction n using Nat.strong_induction_on with
  | _ n ih =>
    refine ⟨?_, ?_, ?_⟩
    · intro v lvl hsz
      cases v with
      | null => simp [jsize, serialize_value]
      | bool b => cases b <;> simp [jsize, serialize_value]
      | num m f =>
        obtain ⟨c, tl, hct, _⟩ := serialize_num_head m f
        simp [jsize, serialize_value, hct]
      | str s => simp [jsize, serialize_value, serialize_string]
      | arr items =>
        cases items with
        | nil => simp [jsize, jsizeL, serialize_value]
        | cons v vs =>
          have hn : jsize v + jsizeL vs + 2 ≤ n := by
            simp [jsize, jsizeL] at hsz
            omega
          obtain ⟨b1, b2, b3⟩ := ih (n - 1) (by omega)
          have hlv := b1 v (lvl + 1) (by omega)
          have hlvs := b2 vs (lvl + 1) (by omega)
          simp only [jsize, jsizeL, serialize_value, List.length_cons, List.length_append,
            newline_indent_length]
          omega
      | obj fields =>
        cases fields with
        | nil => simp [jsize, jsizeM, serialize_value]
        | cons f fs =>
          have hn : jsize f.2 + jsizeM fs + 2 ≤ n := by
            simp [jsize, jsizeM] at hsz
            omega
          obtain ⟨b1, b2, b3⟩ := ih (n - 1) (by omega)
          have hlv := b1 f.2 (lvl + 1) (by omega)
          have hlfs := b3 fs (lvl + 1) (by omega)
          obtain ⟨k, v2⟩ := f
          simp only [jsize, jsizeM, serialize_value, serialize_member_chars, serialize_string,
            List.length_cons, List.length_append, newline_indent_length] at hlv hlfs ⊢
          omega
    · intro vs lvl hsz
      cases vs with
      | nil => simp [jsizeL, serialize_items_tail]
      | cons v vs =>
        have hn : jsize v + jsizeL vs + 1 ≤ n := by
          simp [jsizeL] at hsz
          omega
        obtain ⟨b1, b2, b3⟩ := ih (n - 1) (by omega)
        have hlv := b1 v lvl (by omega)
        have hlvs := b2 vs lvl (by omega)
        simp only [jsizeL, serialize_items_tail, List.length_cons, List.length_append,
          newline_indent_length]
        omega
    · intro fs lvl hsz
      cases fs with
      | nil => simp [jsizeM, serialize_members_tail]
      | cons f fs =>
        have hn : jsize f.2 + jsizeM fs + 1 ≤ n := by
          simp [jsizeM] at hsz
          omega
        obtain ⟨b1, b2, b3⟩ := ih (n - 1) (by omega)
        have hlv := b1 f.2 lvl (by omega)
        have hlfs := b3 fs lvl (by omega)
        obtain ⟨k, v2⟩ := f
        simp only [jsizeM, serialize_members_tail, serialize_member_chars, serialize_string,
          List.length_cons, List.length_append, newline_indent_length] at hlv hlfs ⊢
        omega

/-- C7: every JSON document a script writes (`json.dumps(doc, indent=2,
ensure_ascii=False)` over the SERP summary, raw response, arXiv metadata and
X posts documents) is well-formed, and reading the written text back with the
JSON grammar recovers an equal document: the serialize/parse round-trip is
the identity on every representable document. -/
theorem json_output_roundtrip (v : JValue) : json_loads (json_dumps v) = some v := by
  unfold json_loads json_dumps
  have hb := (serialize_length_aux (jsize v)).1 v 0 (Nat.le_refl _)
  obtain ⟨S1, _, _, _⟩ := parse_serialize_aux ((serialize_value 0 v).length + 1)
  have h := S1 v 0 [] [] (by simp) (by trivial) (by omega)
  rw [show (([] : List Char) ++ (serialize_value 0 v ++ [])) = serialize_value 0 v from by
    simp] at h
  rw [h]
  dsimp only
  rw [if_pos (show skip_ws ([] : List Char) = [] from rfl)]
